import Mathlib

/-!
Verification development for the lot-based cost-basis and P&L ledger of the
crypto-portfolio-tracker repository (`src/portfolio_tracker/transaction_tracker.py`
together with the record types of `transaction_models.py`).

The SQLite tables `transactions`, `cost_basis_lots` and `realized_pnl` are
modelled as lists of records inside a `DB` state; SQL REAL columns are
modelled as exact rationals; SQL TEXT date columns are modelled as strings
compared lexicographically, exactly as SQLite compares TEXT values; the
AUTOINCREMENT primary keys are modelled by explicit next-id counters.
`print` calls of the tracker are modelled as an observable `warnings` list.
-/

namespace PortfolioTracker

/-- Transaction type enum of `transaction_models.py`. -/
inductive TransactionType where
  | BUY
  | SELL
deriving DecidableEq

/-- Accounting method enum of `transaction_models.py`. -/
inductive AccountingMethod where
  | FIFO
  | LIFO
  | AVERAGE_COST
  | SPECIFIC_ID
deriving DecidableEq

/-- A row of the `transactions` table. -/
structure Txn where
  id : Nat
  timestamp : String
  symbol : String
  transaction_type : TransactionType
  amount : ℚ
  price_per_unit : ℚ
  total_value : ℚ
  fee : ℚ
  fee_currency : String
  exchange : Option String
  transaction_id : Option String
  notes : Option String
deriving DecidableEq

/-- A row of the `cost_basis_lots` table. -/
structure Lot where
  id : Nat
  transaction_id : Nat
  symbol : String
  amount : ℚ
  cost_per_unit : ℚ
  total_cost : ℚ
  fee : ℚ
  purchase_date : String
  is_closed : Bool
  closed_date : Option String
deriving DecidableEq

/-- A row of the `realized_pnl` table. -/
structure PnlEntry where
  id : Nat
  sell_transaction_id : Nat
  lot_id : Nat
  symbol : String
  amount : ℚ
  cost_basis : ℚ
  sale_price : ℚ
  sale_value : ℚ
  realized_gain_loss : ℚ
  accounting_method : AccountingMethod
  sale_date : String
deriving DecidableEq

/-- The whole database state of a `TransactionTracker`. -/
structure DB where
  transactions : List Txn
  lots : List Lot
  realized_pnl : List PnlEntry
  next_txn_id : Nat
  next_lot_id : Nat
  next_pnl_id : Nat
  warnings : List (String × ℚ)
deriving DecidableEq

/-- Fresh database, as created by `_initialize_tables`. -/
def emptyDB : DB := ⟨[], [], [], 1, 1, 1, []⟩

/-- The dictionary shape returned by the `_get_open_lots_*` helpers
(columns id, amount, cost_per_unit, total_cost, purchase_date). -/
structure LotView where
  id : Nat
  amount : ℚ
  cost_per_unit : ℚ
  total_cost : ℚ
  purchase_date : Option String
deriving DecidableEq

/-- Row-to-dict conversion used by the FIFO/LIFO lot queries. -/
def lotView (l : Lot) : LotView :=
  ⟨l.id, l.amount, l.cost_per_unit, l.total_cost, some l.purchase_date⟩

/-- `WHERE symbol = ? AND is_closed = 0` over `cost_basis_lots`. -/
def openLotsOf (db : DB) (sym : String) : List Lot :=
  db.lots.filter (fun l => l.symbol == sym && !l.is_closed)

/-- `ORDER BY purchase_date ASC, id ASC`. -/
def fifoR (a b : Lot) : Prop :=
  a.purchase_date < b.purchase_date ∨ (a.purchase_date = b.purchase_date ∧ a.id ≤ b.id)

/-- `ORDER BY purchase_date DESC, id DESC`. -/
def lifoR (a b : Lot) : Prop :=
  b.purchase_date < a.purchase_date ∨ (a.purchase_date = b.purchase_date ∧ b.id ≤ a.id)

instance : DecidableRel fifoR := fun a b => by unfold fifoR; infer_instance

instance : DecidableRel lifoR := fun a b => by unfold lifoR; infer_instance

/-- `_get_open_lots_fifo`: open lots of the symbol, oldest first. -/
def get_open_lots_fifo (db : DB) (sym : String) : List LotView :=
  (List.insertionSort fifoR (openLotsOf db sym)).map lotView

/-- `_get_open_lots_lifo`: open lots of the symbol, newest first. -/
def get_open_lots_lifo (db : DB) (sym : String) : List LotView :=
  (List.insertionSort lifoR (openLotsOf db sym)).map lotView

/-- `_get_open_lots_average_cost`: one virtual lot (id 0) aggregating all
open lots of the symbol, or no lot when the summed amount is not positive. -/
def get_open_lots_average_cost (db : DB) (sym : String) : List LotView :=
  let total_amount := ((openLotsOf db sym).map Lot.amount).sum
  let total_cost := ((openLotsOf db sym).map Lot.total_cost).sum
  let avg_cost_per_unit := if 0 < total_amount then total_cost / total_amount else 0
  if 0 < total_amount then [⟨0, total_amount, avg_cost_per_unit, total_cost, none⟩] else []

/-- `UPDATE cost_basis_lots SET ... WHERE id = target`: SQL updates every
row matching the predicate. -/
def updateById (L : List Lot) (target : Nat) (f : Lot → Lot) : List Lot :=
  L.map (fun l => if l.id = target then f l else l)

/-- `SET is_closed = 1, closed_date = ?`. -/
def closeLot (d : String) (l : Lot) : Lot :=
  { l with is_closed := true, closed_date := some d }

/-- `SET amount = ?, total_cost = ?`. -/
def setAmount (a c : ℚ) (l : Lot) : Lot :=
  { l with amount := a, total_cost := c }

/-- The `INSERT INTO realized_pnl` row built in one iteration of the
matching loop, for lot view `v` with `remaining_to_sell = r`. -/
def sellEntry (sell_transaction_id : Nat) (symbol : String)
    (sell_amount sell_price sell_fee : ℚ) (sell_date : String)
    (accounting_method : AccountingMethod) (v : LotView) (r : ℚ)
    (pnl_id : Nat) : PnlEntry :=
  let amount_to_close := min r v.amount
  let cost_basis := amount_to_close * v.cost_per_unit
  let sale_proceeds := amount_to_close * sell_price
  let fee_allocation :=
    if 0 < sell_amount then sell_fee * (amount_to_close / sell_amount) else 0
  ⟨pnl_id, sell_transaction_id, v.id, symbol, amount_to_close, cost_basis,
   sell_price, sale_proceeds, sale_proceeds - cost_basis - fee_allocation,
   accounting_method, sell_date⟩

/-- The `UPDATE cost_basis_lots` of one loop iteration: close the lot when
it is consumed entirely, otherwise shrink amount and total cost. -/
def lotUpdate (sell_date : String) (v : LotView) (amount_to_close : ℚ)
    (L : List Lot) : List Lot :=
  if v.amount ≤ amount_to_close then
    updateById L v.id (closeLot sell_date)
  else
    updateById L v.id
      (setAmount (v.amount - amount_to_close)
        ((v.amount - amount_to_close) * v.cost_per_unit))

/-- One full iteration of the matching loop on the database state. -/
def sellStep (sell_transaction_id : Nat) (symbol : String)
    (sell_amount sell_price sell_fee : ℚ) (sell_date : String)
    (accounting_method : AccountingMethod) (v : LotView) (r : ℚ)
    (db : DB) : DB :=
  { db with
      realized_pnl := db.realized_pnl ++
        [sellEntry sell_transaction_id symbol sell_amount sell_price sell_fee
          sell_date accounting_method v r db.next_pnl_id],
      next_pnl_id := db.next_pnl_id + 1,
      lots := lotUpdate sell_date v (min r v.amount) db.lots }

/-- The lot-matching loop of `_process_sell_transaction`: walks the lot
views in order, emits one realized-P&L row per touched lot, closes or
shrinks the touched lot, and returns the state plus `remaining_to_sell`. -/
def processLots (sell_transaction_id : Nat) (symbol : String)
    (sell_amount sell_price sell_fee : ℚ) (sell_date : String)
    (accounting_method : AccountingMethod) :
    List LotView → ℚ → DB → DB × ℚ
  | [], remaining_to_sell, db => (db, remaining_to_sell)
  | v :: rest, remaining_to_sell, db =>
    if remaining_to_sell ≤ 0 then (db, remaining_to_sell)
    else
      processLots sell_transaction_id symbol sell_amount sell_price sell_fee
        sell_date accounting_method rest
        (remaining_to_sell - min remaining_to_sell v.amount)
        (sellStep sell_transaction_id symbol sell_amount sell_price sell_fee
          sell_date accounting_method v remaining_to_sell db)

/-- `_process_sell_transaction`: picks the lot list for the accounting
method, runs the matching loop, and prints a warning when the sell exceeds
the available lot coverage. -/
def process_sell_transaction (db : DB) (sell_transaction_id : Nat) (symbol : String)
    (sell_amount sell_price sell_fee : ℚ) (sell_date : String)
    (accounting_method : AccountingMethod) : DB :=
  let lots :=
    match accounting_method with
    | .FIFO => get_open_lots_fifo db symbol
    | .LIFO => get_open_lots_lifo db symbol
    | .AVERAGE_COST => get_open_lots_average_cost db symbol
    | _ => get_open_lots_fifo db symbol
  let res := processLots sell_transaction_id symbol sell_amount sell_price sell_fee
    sell_date accounting_method lots sell_amount db
  if 0 < res.2 then
    { res.1 with warnings := res.1.warnings ++ [(symbol, res.2)] }
  else res.1

/-- `record_transaction`: inserts the transaction row; for a BUY opens one
cost-basis lot (fee folded into the cost basis); for a SELL delegates to
`_process_sell_transaction` with the chosen method (default FIFO).
Returns the new state together with the created transaction id. -/
def record_transaction (db : DB) (symbol : String) (transaction_type : TransactionType)
    (amount price_per_unit : ℚ) (fee : ℚ) (fee_currency : String)
    (exchange : Option String) (transaction_id : Option String) (notes : Option String)
    (timestamp : String) (accounting_method : Option AccountingMethod) : DB × Nat :=
  let total_value := amount * price_per_unit
  let trans_id := db.next_txn_id
  let txn : Txn :=
    ⟨trans_id, timestamp, symbol, transaction_type, amount, price_per_unit,
     total_value, fee, fee_currency, exchange, transaction_id, notes⟩
  let db1 : DB :=
    { db with transactions := db.transactions ++ [txn], next_txn_id := trans_id + 1 }
  match transaction_type with
  | .BUY =>
    let cost_per_unit := if 0 < amount then (total_value + fee) / amount else 0
    let lot : Lot :=
      ⟨db1.next_lot_id, trans_id, symbol, amount, cost_per_unit,
       total_value + fee, fee, timestamp, false, none⟩
    ({ db1 with lots := db1.lots ++ [lot], next_lot_id := db1.next_lot_id + 1 }, trans_id)
  | .SELL =>
    let method := accounting_method.getD AccountingMethod.FIFO
    (process_sell_transaction db1 trans_id symbol amount price_per_unit fee
      timestamp method, trans_id)

/-- `transaction_exists`: falsy external ids short-circuit to false,
otherwise `COUNT(*) > 0` over `WHERE transaction_id = ?`. -/
def transaction_exists (db : DB) (tid : String) : Bool :=
  if tid = "" then false
  else decide (0 < db.transactions.countP (fun t => t.transaction_id == some tid))

/-- One per-symbol row of the tax report. -/
structure TradeRow where
  symbol : String
  amount_sold : ℚ
  cost_basis : ℚ
  sale_proceeds : ℚ
  gain_loss : ℚ
  trade_count : Nat
deriving DecidableEq

/-- The dictionary returned by `generate_tax_report`. -/
structure TaxReport where
  year : Nat
  accounting_method : AccountingMethod
  trades : List TradeRow
  total_gains : ℚ
  total_losses : ℚ
  net_gain_loss : ℚ
  total_trades : Nat
deriving DecidableEq

/-- Zero-padded year prefix, as produced by `datetime.strftime` for the
report boundaries. -/
def padYear (y : Nat) : String :=
  let s := toString y
  String.mk (List.replicate (4 - s.length) '0') ++ s

/-- `datetime(year, 1, 1)` formatted as stored in `sale_date`. -/
def yearStart (y : Nat) : String := padYear y ++ "-01-01 00:00:00"

/-- `datetime(year, 12, 31, 23, 59, 59)` formatted as stored in `sale_date`. -/
def yearEnd (y : Nat) : String := padYear y ++ "-12-31 23:59:59"

/-- `WHERE sale_date >= ? AND sale_date <= ? AND accounting_method = ?`. -/
def inYear (y : Nat) (m : AccountingMethod) (e : PnlEntry) : Bool :=
  decide (yearStart y ≤ e.sale_date) && decide (e.sale_date ≤ yearEnd y)
    && e.accounting_method == m

/-- One `GROUP BY symbol` aggregate row of the tax-report query. -/
def rowFor (es : List PnlEntry) (s : String) : TradeRow :=
  let g := es.filter (fun e => e.symbol == s)
  ⟨s, (g.map PnlEntry.amount).sum, (g.map PnlEntry.cost_basis).sum,
   (g.map PnlEntry.sale_value).sum, (g.map PnlEntry.realized_gain_loss).sum,
   g.length⟩

/-- `generate_tax_report`: filters realized entries to the year and method,
groups by symbol (ascending), then accumulates gains and loss magnitudes in
one pass over the grouped rows, exactly like the Python loop. -/
def generate_tax_report (db : DB) (year : Nat)
    (accounting_method : Option AccountingMethod) : TaxReport :=
  let method := accounting_method.getD AccountingMethod.FIFO
  let es := db.realized_pnl.filter (inYear year method)
  let syms := List.insertionSort (fun a b => a ≤ b) (es.map PnlEntry.symbol).dedup
  let trades := syms.map (rowFor es)
  let totals := trades.foldl
    (fun (p : ℚ × ℚ) t =>
      if 0 < t.gain_loss then (p.1 + t.gain_loss, p.2) else (p.1, p.2 + |t.gain_loss|))
    (0, 0)
  ⟨year, method, trades, totals.1, totals.2, totals.1 - totals.2,
   (trades.map TradeRow.trade_count).sum⟩

/-- `SUM(amount) ... WHERE symbol = ? AND is_closed = 0`, per-row view. -/
def openContrib (sym : String) (l : Lot) : ℚ :=
  if l.symbol == sym && !l.is_closed then l.amount else 0

/-- Total remaining amount over open lots of a symbol. -/
def openAmount (sym : String) (L : List Lot) : ℚ :=
  (L.map (openContrib sym)).sum

/-! ### Order facts about the FIFO/LIFO sort keys -/

instance : IsTotal Lot fifoR := by
  constructor
  intro a b
  rcases lt_trichotomy a.purchase_date b.purchase_date with h | h | h
  · exact Or.inl (Or.inl h)
  · rcases Nat.le_total a.id b.id with hi | hi
    · exact Or.inl (Or.inr ⟨h, hi⟩)
    · exact Or.inr (Or.inr ⟨h.symm, hi⟩)
  · exact Or.inr (Or.inl h)

instance : IsTrans Lot fifoR := by
  constructor
  intro a b c hab hbc
  rcases hab with h1 | ⟨e1, i1⟩ <;> rcases hbc with h2 | ⟨e2, i2⟩
  · exact Or.inl (h1.trans h2)
  · exact Or.inl (e2 ▸ h1)
  · exact Or.inl (e1 ▸ h2)
  · exact Or.inr ⟨e1.trans e2, i1.trans i2⟩

instance : IsTotal Lot lifoR := by
  constructor
  intro a b
  rcases lt_trichotomy a.purchase_date b.purchase_date with h | h | h
  · exact Or.inr (Or.inl h)
  · rcases Nat.le_total a.id b.id with hi | hi
    · exact Or.inr (Or.inr ⟨h.symm, hi⟩)
    · exact Or.inl (Or.inr ⟨h, hi⟩)
  · exact Or.inl (Or.inl h)

instance : IsTrans Lot lifoR := by
  constructor
  intro a b c hab hbc
  rcases hab with h1 | ⟨e1, i1⟩ <;> rcases hbc with h2 | ⟨e2, i2⟩
  · exact Or.inl (h2.trans h1)
  · exact Or.inl (e2 ▸ h1)
  · exact Or.inl (e1 ▸ h2)
  · exact Or.inr ⟨e1.trans e2, i2.trans i1⟩

/-! ### Facts about `updateById` -/

theorem updateById_length (L : List Lot) (t : Nat) (f : Lot → Lot) :
    (updateById L t f).length = L.length := by
  simp [updateById]

theorem updateById_map_id (L : List Lot) (t : Nat) (f : Lot → Lot)
    (hf : ∀ l, (f l).id = l.id) :
    (updateById L t f).map Lot.id = L.map Lot.id := by
  induction L with
  | nil => rfl
  | cons a L ih =>
    simp only [updateById, List.map_cons] at ih ⊢
    by_cases h : a.id = t <;> simp [h, hf, ih]

theorem updateById_eq_of_forall_ne (L : List Lot) (t : Nat) (f : Lot → Lot)
    (h : ∀ l ∈ L, l.id ≠ t) : updateById L t f = L := by
  induction L with
  | nil => rfl
  | cons a L ih =>
    simp only [updateById, List.map_cons]
    rw [if_neg (h a (List.mem_cons_self a L))]
    have := ih (fun l hl => h l (List.mem_cons_of_mem a hl))
    simpa [updateById] using this

theorem mem_updateById_of_ne (L : List Lot) (t : Nat) (f : Lot → Lot)
    (l : Lot) (hl : l ∈ L) (hne : l.id ≠ t) : l ∈ updateById L t f := by
  have : (if l.id = t then f l else l) ∈ updateById L t f :=
    List.mem_map_of_mem _ hl
  rwa [if_neg hne] at this

theorem closeLot_id (d : String) (l : Lot) : (closeLot d l).id = l.id := rfl

theorem setAmount_id (a c : ℚ) (l : Lot) : (setAmount a c l).id = l.id := rfl

/-! ### Facts about `openAmount` -/

theorem openAmount_nil (sym : String) : openAmount sym [] = 0 := rfl

theorem openAmount_cons (sym : String) (l : Lot) (L : List Lot) :
    openAmount sym (l :: L) = openContrib sym l + openAmount sym L := by
  simp [openAmount]

theorem openAmount_append (sym : String) (L₁ L₂ : List Lot) :
    openAmount sym (L₁ ++ L₂) = openAmount sym L₁ + openAmount sym L₂ := by
  simp [openAmount]

theorem openAmount_eq_filter_sum (sym : String) (L : List Lot) :
    openAmount sym L
      = ((L.filter (fun l => l.symbol == sym && !l.is_closed)).map Lot.amount).sum := by
  induction L with
  | nil => rfl
  | cons a L ih =>
    by_cases h : a.symbol == sym && !a.is_closed
    · simp [openAmount_cons, openContrib, h, ih]
    · simp [openAmount_cons, openContrib, h, ih]

theorem openAmount_updateById (sym : String) (L : List Lot) (t : Nat)
    (f : Lot → Lot) (hN : (L.map Lot.id).Nodup) (l0 : Lot) (h0 : l0 ∈ L)
    (ht : l0.id = t) :
    openAmount sym (updateById L t f)
      = openAmount sym L - openContrib sym l0 + openContrib sym (f l0) := by
  induction L with
  | nil => cases h0
  | cons a L ih =>
    simp only [List.map_cons, List.nodup_cons] at hN
    rcases List.mem_cons.mp h0 with rfl | h0'
    · have hupd : updateById L t f = L := by
        refine updateById_eq_of_forall_ne L t f (fun l hl => ?_)
        intro hcon
        apply hN.1
        have hmem : l.id ∈ L.map Lot.id := List.mem_map_of_mem Lot.id hl
        rw [hcon, ← ht] at hmem
        exact hmem
      simp only [updateById, List.map_cons, if_pos ht]
      have : L.map (fun l => if l.id = t then f l else l) = updateById L t f := rfl
      rw [this, hupd, openAmount_cons, openAmount_cons]
      ring
    · have hane : a.id ≠ t := by
        intro hcon
        apply hN.1
        have hmem : l0.id ∈ L.map Lot.id := List.mem_map_of_mem Lot.id h0'
        rw [ht, ← hcon] at hmem
        exact hmem
      simp only [updateById, List.map_cons, if_neg hane]
      have : L.map (fun l => if l.id = t then f l else l) = updateById L t f := rfl
      rw [this, openAmount_cons, ih hN.2 h0', openAmount_cons]
      ring

/-! ### Facts about `lotUpdate` -/

theorem lotUpdate_map_id (sd : String) (v : LotView) (c : ℚ) (L : List Lot) :
    (lotUpdate sd v c L).map Lot.id = L.map Lot.id := by
  unfold lotUpdate
  split <;> exact updateById_map_id _ _ _ (fun l => rfl)

theorem lotUpdate_length (sd : String) (v : LotView) (c : ℚ) (L : List Lot) :
    (lotUpdate sd v c L).length = L.length := by
  unfold lotUpdate
  split <;> exact updateById_length _ _ _

theorem mem_lotUpdate_of_ne (sd : String) (v : LotView) (c : ℚ) (L : List Lot)
    (l : Lot) (hl : l ∈ L) (hne : l.id ≠ v.id) : l ∈ lotUpdate sd v c L := by
  unfold lotUpdate
  split <;> exact mem_updateById_of_ne _ _ _ _ hl hne

theorem updateById_getElem?_of_ne (L : List Lot) (t : Nat) (f : Lot → Lot)
    (i : Nat) (l : Lot) (hl : L[i]? = some l) (hne : l.id ≠ t) :
    (updateById L t f)[i]? = some l := by
  simp only [updateById, List.getElem?_map, hl, Option.map_some']
  rw [if_neg hne]

theorem lotUpdate_getElem?_of_ne (sd : String) (v : LotView) (c : ℚ)
    (L : List Lot) (i : Nat) (l : Lot) (hl : L[i]? = some l)
    (hne : l.id ≠ v.id) :
    (lotUpdate sd v c L)[i]? = some l := by
  unfold lotUpdate
  split <;> exact updateById_getElem?_of_ne L v.id _ i l hl hne

theorem openAmount_lotUpdate (sym0 : String) (sd : String) (v : LotView) (c : ℚ)
    (L : List Lot) (hc : c ≤ v.amount) (hN : (L.map Lot.id).Nodup)
    (l0 : Lot) (hl0 : l0 ∈ L) (hid : l0.id = v.id) (hsym : l0.symbol = sym0)
    (hopen : l0.is_closed = false) (hamt : l0.amount = v.amount) :
    openAmount sym0 (lotUpdate sd v c L) = openAmount sym0 L - c := by
  have hcontrib : openContrib sym0 l0 = v.amount := by
    simp [openContrib, hsym, hopen, hamt]
  unfold lotUpdate
  split
  · rename_i hva
    have hceq : c = v.amount := le_antisymm hc hva
    rw [openAmount_updateById sym0 L v.id _ hN l0 hl0 hid, hcontrib]
    have : openContrib sym0 (closeLot sd l0) = 0 := by
      simp [openContrib, closeLot]
    rw [this, hceq]
    ring
  · rw [openAmount_updateById sym0 L v.id _ hN l0 hl0 hid, hcontrib]
    have : openContrib sym0 (setAmount (v.amount - c) ((v.amount - c) * v.cost_per_unit) l0)
        = v.amount - c := by
      simp [openContrib, setAmount, hsym, hopen]
    rw [this]
    ring

section ProcessLotsFacts

variable (tid : Nat) (sym : String) (sa sp sf : ℚ) (sd : String) (am : AccountingMethod)

theorem processLots_stop (v : LotView) (rest : List LotView) (r : ℚ) (db : DB)
    (hr : r ≤ 0) :
    processLots tid sym sa sp sf sd am (v :: rest) r db = (db, r) := by
  simp [processLots, hr]

theorem processLots_cons (v : LotView) (rest : List LotView) (r : ℚ) (db : DB)
    (hr : ¬ r ≤ 0) :
    processLots tid sym sa sp sf sd am (v :: rest) r db
      = processLots tid sym sa sp sf sd am rest (r - min r v.amount)
          (sellStep tid sym sa sp sf sd am v r db) := by
  simp [processLots, hr]

theorem processLots_transactions : ∀ (views : List LotView) (r : ℚ) (db : DB),
    (processLots tid sym sa sp sf sd am views r db).1.transactions = db.transactions := by
  intro views
  induction views with
  | nil => intro r db; rfl
  | cons v rest ih =>
    intro r db
    by_cases hr : r ≤ 0
    · rw [processLots_stop tid sym sa sp sf sd am v rest r db hr]
    · rw [processLots_cons tid sym sa sp sf sd am v rest r db hr, ih]
      rfl

theorem processLots_warnings : ∀ (views : List LotView) (r : ℚ) (db : DB),
    (processLots tid sym sa sp sf sd am views r db).1.warnings = db.warnings := by
  intro views
  induction views with
  | nil => intro r db; rfl
  | cons v rest ih =>
    intro r db
    by_cases hr : r ≤ 0
    · rw [processLots_stop tid sym sa sp sf sd am v rest r db hr]
    · rw [processLots_cons tid sym sa sp sf sd am v rest r db hr, ih]
      rfl

theorem processLots_lots_map_id : ∀ (views : List LotView) (r : ℚ) (db : DB),
    (processLots tid sym sa sp sf sd am views r db).1.lots.map Lot.id
      = db.lots.map Lot.id := by
  intro views
  induction views with
  | nil => intro r db; rfl
  | cons v rest ih =>
    intro r db
    by_cases hr : r ≤ 0
    · rw [processLots_stop tid sym sa sp sf sd am v rest r db hr]
    · rw [processLots_cons tid sym sa sp sf sd am v rest r db hr, ih]
      exact lotUpdate_map_id sd v (min r v.amount) db.lots

theorem processLots_lots_length : ∀ (views : List LotView) (r : ℚ) (db : DB),
    (processLots tid sym sa sp sf sd am views r db).1.lots.length
      = db.lots.length := by
  intro views r db
  have h := processLots_lots_map_id tid sym sa sp sf sd am views r db
  have := congrArg List.length h
  simpa using this

theorem processLots_r_nonneg : ∀ (views : List LotView) (r : ℚ) (db : DB),
    0 ≤ r → 0 ≤ (processLots tid sym sa sp sf sd am views r db).2 := by
  intro views
  induction views with
  | nil => intro r db h; exact h
  | cons v rest ih =>
    intro r db h
    by_cases hr : r ≤ 0
    · rw [processLots_stop tid sym sa sp sf sd am v rest r db hr]; exact h
    · rw [processLots_cons tid sym sa sp sf sd am v rest r db hr]
      exact ih _ _ (by simp [sub_nonneg, min_le_left])

theorem processLots_zero : ∀ (views : List LotView) (db : DB),
    processLots tid sym sa sp sf sd am views 0 db = (db, 0) := by
  intro views db
  cases views with
  | nil => rfl
  | cons v rest => exact processLots_stop tid sym sa sp sf sd am v rest 0 db le_rfl

theorem processLots_consume_all : ∀ (views : List LotView) (r : ℚ) (db : DB),
    0 ≤ r → r ≤ (views.map LotView.amount).sum →
    (processLots tid sym sa sp sf sd am views r db).2 = 0 := by
  intro views
  induction views with
  | nil =>
    intro r db h0 hle
    simp only [List.map_nil, List.sum_nil] at hle
    have : r = 0 := le_antisymm hle h0
    simp [processLots, this]
  | cons v rest ih =>
    intro r db h0 hle
    by_cases hr : r ≤ 0
    · rw [processLots_stop tid sym sa sp sf sd am v rest r db hr]
      exact le_antisymm hr h0
    · rw [processLots_cons tid sym sa sp sf sd am v rest r db hr]
      simp only [List.map_cons, List.sum_cons] at hle
      by_cases hva : v.amount ≤ r
      · rw [min_eq_right hva]
        exact ih _ _ (sub_nonneg.mpr hva) (by linarith)
      · rw [min_eq_left (le_of_not_le hva), sub_self]
        rw [processLots_zero tid sym sa sp sf sd am]

theorem processLots_r_max : ∀ (views : List LotView) (r : ℚ) (db : DB),
    0 ≤ r → (∀ v ∈ views, 0 ≤ v.amount) →
    (processLots tid sym sa sp sf sd am views r db).2
      = max 0 (r - (views.map LotView.amount).sum) := by
  intro views
  induction views with
  | nil =>
    intro r db h0 _
    simp [processLots, max_eq_right h0]
  | cons v rest ih =>
    intro r db h0 hnn
    have hsumnn : 0 ≤ (rest.map LotView.amount).sum := by
      apply List.sum_nonneg
      intro x hx
      rcases List.mem_map.mp hx with ⟨w, hw, rfl⟩
      exact hnn w (List.mem_cons_of_mem v hw)
    have hvnn : 0 ≤ v.amount := hnn v (List.mem_cons_self v rest)
    simp only [List.map_cons, List.sum_cons]
    by_cases hr : r ≤ 0
    · have : r = 0 := le_antisymm hr h0
      subst this
      rw [processLots_stop tid sym sa sp sf sd am v rest 0 db le_rfl]
      have hle0 : (0 : ℚ) - (v.amount + (rest.map LotView.amount).sum) ≤ 0 := by linarith
      exact (max_eq_left hle0).symm
    · rw [processLots_cons tid sym sa sp sf sd am v rest r db hr]
      by_cases hva : v.amount ≤ r
      · rw [min_eq_right hva,
          ih _ _ (sub_nonneg.mpr hva) (fun w hw => hnn w (List.mem_cons_of_mem v hw))]
        ring_nf
      · rw [min_eq_left (le_of_not_le hva), sub_self,
          processLots_zero tid sym sa sp sf sd am]
        have hle0 : r - (v.amount + (rest.map LotView.amount).sum) ≤ 0 := by
          push_neg at hva
          linarith
        exact (max_eq_left hle0).symm

theorem processLots_realized_append : ∀ (views : List LotView) (r : ℚ) (db : DB),
    ∃ E : List PnlEntry,
      (processLots tid sym sa sp sf sd am views r db).1.realized_pnl
        = db.realized_pnl ++ E
      ∧ (E.map PnlEntry.amount).sum
          = r - (processLots tid sym sa sp sf sd am views r db).2
      ∧ E.map PnlEntry.lot_id = (views.map LotView.id).take E.length := by
  intro views
  induction views with
  | nil =>
    intro r db
    exact ⟨[], by simp [processLots], by simp [processLots], by simp⟩
  | cons v rest ih =>
    intro r db
    by_cases hr : r ≤ 0
    · rw [processLots_stop tid sym sa sp sf sd am v rest r db hr]
      exact ⟨[], by simp, by simp, by simp⟩
    · rw [processLots_cons tid sym sa sp sf sd am v rest r db hr]
      rcases ih (r - min r v.amount) (sellStep tid sym sa sp sf sd am v r db)
        with ⟨E, h1, h2, h3⟩
      refine ⟨sellEntry tid sym sa sp sf sd am v r db.next_pnl_id :: E, ?_, ?_, ?_⟩
      · rw [h1]
        simp [sellStep]
      · simp only [List.map_cons, List.sum_cons, h2]
        have : (sellEntry tid sym sa sp sf sd am v r db.next_pnl_id).amount
            = min r v.amount := rfl
        rw [this]
        ring
      · simp only [List.map_cons, List.length_cons, List.take_succ_cons, h3]
        have : (sellEntry tid sym sa sp sf sd am v r db.next_pnl_id).lot_id = v.id := rfl
        rw [this]

theorem processLots_openAmount (sym0 : String) :
    ∀ (views : List LotView) (r : ℚ) (db : DB),
    (db.lots.map Lot.id).Nodup →
    (∀ v ∈ views, ∃ l, l ∈ db.lots ∧ l.id = v.id ∧ l.symbol = sym0
        ∧ l.is_closed = false ∧ l.amount = v.amount) →
    ((views.map LotView.id).Nodup) →
    openAmount sym0 (processLots tid sym sa sp sf sd am views r db).1.lots
      = openAmount sym0 db.lots
        - (r - (processLots tid sym sa sp sf sd am views r db).2) := by
  intro views
  induction views with
  | nil => intro r db _ _ _; simp [processLots]
  | cons v rest ih =>
    intro r db hN hb hvN
    by_cases hr : r ≤ 0
    · rw [processLots_stop tid sym sa sp sf sd am v rest r db hr]
      simp
    · rw [processLots_cons tid sym sa sp sf sd am v rest r db hr]
      rcases hb v (List.mem_cons_self v rest) with ⟨l0, hl0, hid, hsym, hopen, hamt⟩
      simp only [List.map_cons, List.nodup_cons] at hvN
      have hstep : openAmount sym0 (sellStep tid sym sa sp sf sd am v r db).lots
          = openAmount sym0 db.lots - min r v.amount := by
        have : (sellStep tid sym sa sp sf sd am v r db).lots
            = lotUpdate sd v (min r v.amount) db.lots := rfl
        rw [this]
        exact openAmount_lotUpdate sym0 sd v (min r v.amount) db.lots
          (min_le_right r v.amount) hN l0 hl0 hid hsym hopen hamt
      have hN2 : ((sellStep tid sym sa sp sf sd am v r db).lots.map Lot.id).Nodup := by
        have : (sellStep tid sym sa sp sf sd am v r db).lots.map Lot.id
            = db.lots.map Lot.id := lotUpdate_map_id sd v (min r v.amount) db.lots
        rw [this]
        exact hN
      have hb2 : ∀ w ∈ rest, ∃ l, l ∈ (sellStep tid sym sa sp sf sd am v r db).lots
          ∧ l.id = w.id ∧ l.symbol = sym0 ∧ l.is_closed = false
          ∧ l.amount = w.amount := by
        intro w hw
        rcases hb w (List.mem_cons_of_mem v hw) with ⟨lw, hlw, hwid, hwsym, hwopen, hwamt⟩
        have hne : lw.id ≠ v.id := by
          rw [hwid]
          intro hcon
          exact hvN.1 (hcon ▸ List.mem_map_of_mem LotView.id hw)
        refine ⟨lw, ?_, hwid, hwsym, hwopen, hwamt⟩
        exact mem_lotUpdate_of_ne sd v (min r v.amount) db.lots lw hlw hne
      rw [ih (r - min r v.amount) _ hN2 hb2 hvN.2, hstep]
      ring

theorem processLots_lots_getElem? : ∀ (views : List LotView) (r : ℚ) (db : DB)
    (i : Nat) (l : Lot), db.lots[i]? = some l →
    l.id ∉ views.map LotView.id →
    (processLots tid sym sa sp sf sd am views r db).1.lots[i]? = some l := by
  intro views
  induction views with
  | nil => intro r db i l hl _; exact hl
  | cons v rest ih =>
    intro r db i l hl hmem
    by_cases hr : r ≤ 0
    · rw [processLots_stop tid sym sa sp sf sd am v rest r db hr]
      exact hl
    · simp only [List.map_cons, List.mem_cons, not_or] at hmem
      rw [processLots_cons tid sym sa sp sf sd am v rest r db hr]
      refine ih (r - min r v.amount) _ i l ?_ hmem.2
      exact lotUpdate_getElem?_of_ne sd v (min r v.amount) db.lots i l hl hmem.1

end ProcessLotsFacts

/-! ### Facts about the sorted open-lot views -/

theorem openLotsOf_mem (db : DB) (sym : String) (l : Lot) :
    l ∈ openLotsOf db sym ↔ l ∈ db.lots ∧ l.symbol = sym ∧ l.is_closed = false := by
  simp [openLotsOf, List.mem_filter]

theorem openLotsOf_map_id_nodup (db : DB) (sym : String)
    (hN : (db.lots.map Lot.id).Nodup) :
    ((openLotsOf db sym).map Lot.id).Nodup := by
  have hsub : List.Sublist (openLotsOf db sym) db.lots := List.filter_sublist db.lots
  exact hN.sublist (hsub.map Lot.id)

section SortViews

variable (R : Lot → Lot → Prop) [DecidableRel R] (db : DB) (sym : String)

theorem sortViews_perm :
    ((List.insertionSort R (openLotsOf db sym)).map lotView).Perm
      ((openLotsOf db sym).map lotView) :=
  (List.perm_insertionSort R (openLotsOf db sym)).map lotView

theorem sortViews_map_id :
    ((List.insertionSort R (openLotsOf db sym)).map lotView).map LotView.id
      = (List.insertionSort R (openLotsOf db sym)).map Lot.id := by
  rw [List.map_map]
  rfl

theorem sortViews_id_nodup (hN : (db.lots.map Lot.id).Nodup) :
    (((List.insertionSort R (openLotsOf db sym)).map lotView).map LotView.id).Nodup := by
  rw [sortViews_map_id]
  have hperm : (List.insertionSort R (openLotsOf db sym)).map Lot.id
      |>.Perm ((openLotsOf db sym).map Lot.id) :=
    (List.perm_insertionSort R (openLotsOf db sym)).map Lot.id
  exact hperm.nodup_iff.mpr (openLotsOf_map_id_nodup db sym hN)

theorem sortViews_backing :
    ∀ v ∈ (List.insertionSort R (openLotsOf db sym)).map lotView,
      ∃ l, l ∈ db.lots ∧ l.id = v.id ∧ l.symbol = sym ∧ l.is_closed = false
        ∧ l.amount = v.amount := by
  intro v hv
  rcases List.mem_map.mp hv with ⟨l, hl, rfl⟩
  have hl' : l ∈ openLotsOf db sym :=
    (List.perm_insertionSort R (openLotsOf db sym)).mem_iff.mp hl
  rcases (openLotsOf_mem db sym l).mp hl' with ⟨h1, h2, h3⟩
  exact ⟨l, h1, rfl, h2, h3, rfl⟩

theorem sortViews_amount_sum :
    (((List.insertionSort R (openLotsOf db sym)).map lotView).map LotView.amount).sum
      = openAmount sym db.lots := by
  rw [List.map_map]
  have h1 : (List.insertionSort R (openLotsOf db sym)).map (LotView.amount ∘ lotView)
      = (List.insertionSort R (openLotsOf db sym)).map Lot.amount := rfl
  rw [h1]
  have hperm : ((List.insertionSort R (openLotsOf db sym)).map Lot.amount).Perm
      ((openLotsOf db sym).map Lot.amount) :=
    (List.perm_insertionSort R (openLotsOf db sym)).map Lot.amount
  rw [hperm.sum_eq, openAmount_eq_filter_sum]
  rfl

theorem sortViews_amount_nonneg
    (hpos : ∀ l ∈ db.lots, l.symbol = sym → l.is_closed = false → 0 ≤ l.amount) :
    ∀ v ∈ (List.insertionSort R (openLotsOf db sym)).map lotView, 0 ≤ v.amount := by
  intro v hv
  rcases sortViews_backing R db sym v hv with ⟨l, h1, _, h2, h3, h4⟩
  exact h4 ▸ hpos l h1 h2 h3

end SortViews

/-- The lot views actually used by `_process_sell_transaction` for each
accounting method. -/
def viewsFor (db : DB) (sym : String) : AccountingMethod → List LotView
  | .FIFO => get_open_lots_fifo db sym
  | .LIFO => get_open_lots_lifo db sym
  | .AVERAGE_COST => get_open_lots_average_cost db sym
  | _ => get_open_lots_fifo db sym

theorem process_sell_eq_processLots (db : DB) (tid0 : Nat) (sym : String)
    (sa sp sf : ℚ) (sd : String) (m : AccountingMethod) :
    process_sell_transaction db tid0 sym sa sp sf sd m
      = (if 0 < (processLots tid0 sym sa sp sf sd m (viewsFor db sym m) sa db).2 then
          { (processLots tid0 sym sa sp sf sd m (viewsFor db sym m) sa db).1 with
              warnings :=
                (processLots tid0 sym sa sp sf sd m (viewsFor db sym m) sa db).1.warnings
                ++ [(sym, (processLots tid0 sym sa sp sf sd m (viewsFor db sym m) sa db).2)] }
        else (processLots tid0 sym sa sp sf sd m (viewsFor db sym m) sa db).1) := by
  cases m <;> rfl

/-- For FIFO, LIFO and `SPECIFIC_ID` (which falls back to FIFO) the views
used are a sorted permutation of the symbol's open lots. -/
theorem viewsFor_not_avg (db : DB) (sym : String) (m : AccountingMethod)
    (hm : m ≠ .AVERAGE_COST) :
    (∃ R : Lot → Lot → Prop, ∃ _inst : DecidableRel R,
      viewsFor db sym m = (List.insertionSort R (openLotsOf db sym)).map lotView) := by
  cases m with
  | FIFO => exact ⟨fifoR, inferInstance, rfl⟩
  | LIFO => exact ⟨lifoR, inferInstance, rfl⟩
  | AVERAGE_COST => exact absurd rfl hm
  | SPECIFIC_ID => exact ⟨fifoR, inferInstance, rfl⟩

/-- Composite specification of `_process_sell_transaction` for the
non-average-cost methods, when the sell is fully covered by open lots. -/
theorem process_sell_spec (db : DB) (tid0 : Nat) (sym : String) (sa sp sf : ℚ)
    (sd : String) (m : AccountingMethod) (hm : m ≠ .AVERAGE_COST)
    (hN : (db.lots.map Lot.id).Nodup) (h0 : 0 ≤ sa)
    (hle : sa ≤ openAmount sym db.lots) :
    ∃ E : List PnlEntry,
      (process_sell_transaction db tid0 sym sa sp sf sd m).realized_pnl
        = db.realized_pnl ++ E
      ∧ (E.map PnlEntry.amount).sum = sa
      ∧ openAmount sym (process_sell_transaction db tid0 sym sa sp sf sd m).lots
          = openAmount sym db.lots - sa
      ∧ (process_sell_transaction db tid0 sym sa sp sf sd m).warnings = db.warnings
      ∧ (process_sell_transaction db tid0 sym sa sp sf sd m).transactions
          = db.transactions := by
  rcases viewsFor_not_avg db sym m hm with ⟨R, _instR, heq⟩
  have hvN : ((viewsFor db sym m).map LotView.id).Nodup := by
    rw [heq]; exact sortViews_id_nodup R db sym hN
  have hb : ∀ v ∈ viewsFor db sym m, ∃ l, l ∈ db.lots ∧ l.id = v.id
      ∧ l.symbol = sym ∧ l.is_closed = false ∧ l.amount = v.amount := by
    rw [heq]; exact sortViews_backing R db sym
  have hsum : ((viewsFor db sym m).map LotView.amount).sum = openAmount sym db.lots := by
    rw [heq]; exact sortViews_amount_sum R db sym
  have hr0 : (processLots tid0 sym sa sp sf sd m (viewsFor db sym m) sa db).2 = 0 :=
    processLots_consume_all tid0 sym sa sp sf sd m _ sa db h0 (hsum ▸ hle)
  have hps : process_sell_transaction db tid0 sym sa sp sf sd m
      = (processLots tid0 sym sa sp sf sd m (viewsFor db sym m) sa db).1 := by
    rw [process_sell_eq_processLots, hr0]
    simp
  rcases processLots_realized_append tid0 sym sa sp sf sd m (viewsFor db sym m) sa db
    with ⟨E, h1, h2, _⟩
  refine ⟨E, ?_, ?_, ?_, ?_, ?_⟩
  · rw [hps]; exact h1
  · rw [h2, hr0, sub_zero]
  · rw [hps, processLots_openAmount tid0 sym sa sp sf sd m sym _ sa db hN hb hvN, hr0,
      sub_zero]
  · rw [hps]; exact processLots_warnings tid0 sym sa sp sf sd m _ sa db
  · rw [hps]; exact processLots_transactions tid0 sym sa sp sf sd m _ sa db

/-- `record_transaction` on a SELL, unfolded to the sell processor. -/
theorem record_sell_fst (db : DB) (sym : String) (a p f : ℚ) (fc : String)
    (ex tid notes : Option String) (ts : String) (am : Option AccountingMethod) :
    (record_transaction db sym .SELL a p f fc ex tid notes ts am).1
      = process_sell_transaction
          { db with
              transactions := db.transactions ++
                [⟨db.next_txn_id, ts, sym, .SELL, a, p, a * p, f, fc, ex, tid, notes⟩],
              next_txn_id := db.next_txn_id + 1 }
          db.next_txn_id sym a p f ts (am.getD .FIFO) := rfl

/-! ### Databases produced by a sequence of BUY records -/

/-- One BUY recorded through `record_transaction`
(amount, price per unit, fee, timestamp). -/
def buyFold (sym : String) (db : DB) (b : ℚ × ℚ × ℚ × String) : DB :=
  (record_transaction db sym .BUY b.1 b.2.1 b.2.2.1 "AUD" none none none b.2.2.2 none).1

/-- The database obtained by recording a sequence of BUYs of one symbol
into a fresh tracker. -/
def buysDB (sym : String) (buys : List (ℚ × ℚ × ℚ × String)) : DB :=
  buys.foldl (buyFold sym) emptyDB

theorem buyFold_lots (sym : String) (db : DB) (b : ℚ × ℚ × ℚ × String) :
    (buyFold sym db b).lots = db.lots ++
      [⟨db.next_lot_id, db.next_txn_id, sym, b.1,
        (if 0 < b.1 then (b.1 * b.2.1 + b.2.2.1) / b.1 else 0),
        b.1 * b.2.1 + b.2.2.1, b.2.2.1, b.2.2.2, false, none⟩] := rfl

theorem buyFold_realized (sym : String) (db : DB) (b : ℚ × ℚ × ℚ × String) :
    (buyFold sym db b).realized_pnl = db.realized_pnl := rfl

theorem buyFold_next_lot_id (sym : String) (db : DB) (b : ℚ × ℚ × ℚ × String) :
    (buyFold sym db b).next_lot_id = db.next_lot_id + 1 := rfl

theorem buysDB_fold_inv (sym : String) : ∀ (buys : List (ℚ × ℚ × ℚ × String)) (db : DB),
    (db.lots.map Lot.id).Nodup →
    (∀ l ∈ db.lots, l.id < db.next_lot_id) →
    (∀ l ∈ db.lots, l.symbol = sym ∧ l.is_closed = false) →
    ((buys.foldl (buyFold sym) db).lots.map Lot.id).Nodup
    ∧ (∀ l ∈ (buys.foldl (buyFold sym) db).lots,
        l.id < (buys.foldl (buyFold sym) db).next_lot_id)
    ∧ (∀ l ∈ (buys.foldl (buyFold sym) db).lots, l.symbol = sym ∧ l.is_closed = false)
    ∧ openAmount sym (buys.foldl (buyFold sym) db).lots
        = openAmount sym db.lots + (buys.map (fun b => b.1)).sum
    ∧ (buys.foldl (buyFold sym) db).realized_pnl = db.realized_pnl := by
  intro buys
  induction buys with
  | nil => intro db h1 h2 h3; exact ⟨h1, h2, h3, by simp, rfl⟩
  | cons b rest ih =>
    intro db h1 h2 h3
    have hlots := buyFold_lots sym db b
    have h1' : ((buyFold sym db b).lots.map Lot.id).Nodup := by
      rw [hlots]
      simp only [List.map_append, List.map_cons, List.map_nil]
      rw [List.nodup_append]
      refine ⟨h1, List.nodup_singleton _, ?_⟩
      intro x hx1 hx2
      rcases List.mem_map.mp hx1 with ⟨l, hl, rfl⟩
      have hlt := h2 l hl
      rw [List.mem_singleton] at hx2
      have heqid : l.id = db.next_lot_id := hx2
      omega
    have h2' : ∀ l ∈ (buyFold sym db b).lots, l.id < (buyFold sym db b).next_lot_id := by
      rw [hlots, buyFold_next_lot_id]
      intro l hl
      rcases List.mem_append.mp hl with hl' | hl'
      · have := h2 l hl'; omega
      · rcases List.mem_singleton.mp hl' with rfl
        show db.next_lot_id < db.next_lot_id + 1
        omega
    have h3' : ∀ l ∈ (buyFold sym db b).lots, l.symbol = sym ∧ l.is_closed = false := by
      rw [hlots]
      intro l hl
      rcases List.mem_append.mp hl with hl' | hl'
      · exact h3 l hl'
      · rcases List.mem_singleton.mp hl' with rfl
        exact ⟨rfl, rfl⟩
    rcases ih (buyFold sym db b) h1' h2' h3' with ⟨g1, g2, g3, g4, g5⟩
    refine ⟨g1, g2, g3, ?_, ?_⟩
    · rw [List.foldl_cons]
      rw [g4, hlots, openAmount_append]
      have : openAmount sym
          [(⟨db.next_lot_id, db.next_txn_id, sym, b.1,
            (if 0 < b.1 then (b.1 * b.2.1 + b.2.2.1) / b.1 else 0),
            b.1 * b.2.1 + b.2.2.1, b.2.2.1, b.2.2.2, false, none⟩ : Lot)] = b.1 := by
        simp [openAmount, openContrib]
      rw [this]
      simp only [List.map_cons, List.sum_cons]
      ring
    · rw [List.foldl_cons]
      rw [g5, buyFold_realized]

/-! ### Concrete scenarios -/

/-- BUY 1.0 BTC at 100 with no fee, into a fresh tracker. -/
def dbBuyOne : DB :=
  (record_transaction emptyDB "BTC" .BUY 1 100 0 "AUD" none none none
    "2024-01-01 00:00:00" none).1

/-- SELL 0.5 BTC at 120 under AVERAGE_COST after `dbBuyOne`. -/
def dbAvgSell : DB :=
  (record_transaction dbBuyOne "BTC" .SELL (1/2) 120 0 "AUD" none none none
    "2024-01-02 00:00:00" (some .AVERAGE_COST)).1

/-- The single BUY of `dbBuyOne`, in the tuple form consumed by `buysDB`. -/
def oneBuy : List (ℚ × ℚ × ℚ × String) := [(1, 100, 0, "2024-01-01 00:00:00")]

/-! ### Claim C1 -/

/-- C1 (amended): for any sequence of BUYs of a symbol recorded via
`record_transaction` into a fresh tracker, followed by one SELL of that
symbol with `0 ≤ sell amount ≤ total bought`, recorded via
`record_transaction` under any accounting method other than AVERAGE_COST,
the consumed amounts of the realized-P&L entries created for that sell sum
exactly to the sell amount, and the total amount over open lots of the
symbol afterwards equals total bought minus the sell amount. -/
theorem claim_C1 (sym : String) (buys : List (ℚ × ℚ × ℚ × String))
    (sellAmt sellPrice sellFee : ℚ) (sellDate : String) (fc : String)
    (ex tid notes : Option String) (am : Option AccountingMethod)
    (ham : am ≠ some .AVERAGE_COST) (h0 : 0 ≤ sellAmt)
    (hle : sellAmt ≤ (buys.map (fun b => b.1)).sum) :
    (((record_transaction (buysDB sym buys) sym .SELL sellAmt sellPrice sellFee
        fc ex tid notes sellDate am).1.realized_pnl.map PnlEntry.amount).sum
      = sellAmt)
    ∧ openAmount sym (record_transaction (buysDB sym buys) sym .SELL sellAmt
        sellPrice sellFee fc ex tid notes sellDate am).1.lots
      = (buys.map (fun b => b.1)).sum - sellAmt := by
  rcases buysDB_fold_inv sym buys emptyDB (by simp [emptyDB]) (by simp [emptyDB])
    (by simp [emptyDB]) with ⟨hN, _, _, hopen, hreal⟩
  have hdbB : buysDB sym buys = buys.foldl (buyFold sym) emptyDB := rfl
  rw [← hdbB] at hN hopen hreal
  have hopen' : openAmount sym (buysDB sym buys).lots = (buys.map (fun b => b.1)).sum := by
    rw [hopen]
    simp [emptyDB, openAmount]
  have hreal' : (buysDB sym buys).realized_pnl = [] := by
    rw [hreal]
    rfl
  have hm : am.getD .FIFO ≠ .AVERAGE_COST := by
    cases am with
    | none => simp
    | some x =>
      simp only [Option.getD_some]
      intro hc
      exact ham (by rw [hc])
  rw [record_sell_fst]
  set db1 : DB :=
    { buysDB sym buys with
        transactions := (buysDB sym buys).transactions ++
          [⟨(buysDB sym buys).next_txn_id, sellDate, sym, .SELL, sellAmt, sellPrice,
            sellAmt * sellPrice, sellFee, fc, ex, tid, notes⟩],
        next_txn_id := (buysDB sym buys).next_txn_id + 1 } with hdb1
  have hdb1lots : db1.lots = (buysDB sym buys).lots := rfl
  have hdb1real : db1.realized_pnl = (buysDB sym buys).realized_pnl := rfl
  have hN1 : (db1.lots.map Lot.id).Nodup := by rw [hdb1lots]; exact hN
  have hle1 : sellAmt ≤ openAmount sym db1.lots := by
    rw [hdb1lots, hopen']
    exact hle
  rcases process_sell_spec db1 (buysDB sym buys).next_txn_id sym sellAmt sellPrice
    sellFee sellDate (am.getD .FIFO) hm hN1 h0 hle1 with ⟨E, h1, h2, h3, _, _⟩
  constructor
  · rw [h1, hdb1real, hreal']
    simpa using h2
  · rw [h3, hdb1lots, hopen']

/-- C1 witness: one BUY of 1.0 at 100 with no fee, then SELL 0.5 under
FIFO; entry amounts sum to 0.5 and the open pool drops to 0.5. -/
theorem claim_C1_witness :
    (0 : ℚ) ≤ 1/2
    ∧ ((((record_transaction (buysDB "BTC" oneBuy) "BTC" .SELL (1/2) 120 0
          "AUD" none none none "2024-01-02 00:00:00"
          (some .FIFO)).1.realized_pnl.map PnlEntry.amount).sum = 1/2)
      ∧ openAmount "BTC" (record_transaction (buysDB "BTC" oneBuy) "BTC" .SELL (1/2)
          120 0 "AUD" none none none "2024-01-02 00:00:00" (some .FIFO)).1.lots
        = (oneBuy.map (fun b => b.1)).sum - 1/2) :=
  ⟨by norm_num,
   claim_C1 "BTC" oneBuy (1/2) 120 0 "2024-01-02 00:00:00" "AUD" none none none
     (some .FIFO) (by decide) (by norm_num) (by simp [oneBuy]; norm_num)⟩

/-- C1 counterexample: under AVERAGE_COST (also reachable through
`record_transaction`), after BUY 1.0 and SELL 0.5 the entry amounts do sum
to 0.5, but the open-lot pool still holds 1.0, not `1 − 0.5`: the claim's
open-lot clause fails. -/
theorem claim_C1_counterexample :
    ((dbAvgSell.realized_pnl.map PnlEntry.amount).sum = 1/2)
    ∧ ¬ (openAmount "BTC" dbAvgSell.lots = 1 - (1/2 : ℚ)) := by
  norm_num [dbAvgSell, dbBuyOne, record_transaction, emptyDB, process_sell_transaction,
    viewsFor, get_open_lots_average_cost, openLotsOf, processLots, sellStep, sellEntry,
    lotUpdate, updateById, openAmount, openContrib]

/-! ### Claim C2 -/

/-- C2: under AVERAGE_COST the sell is matched against the single virtual
lot (id 0, pool amount 1.0, blended cost-per-unit 100, so cost basis 50 for
the 0.5 sold), but the persisted open lots are NOT reduced: the
`UPDATE ... WHERE id = 0` matches no real row, so the lots table after the
sell is identical to the lots table before it. -/
theorem claim_C2 :
    dbAvgSell.lots = dbBuyOne.lots
    ∧ dbAvgSell.realized_pnl
      = [⟨1, 2, 0, "BTC", 1/2, 50, 120, 60, 10, .AVERAGE_COST,
          "2024-01-02 00:00:00"⟩]
    ∧ openAmount "BTC" dbAvgSell.lots = 1 := by
  norm_num [dbAvgSell, dbBuyOne, record_transaction, emptyDB, process_sell_transaction,
    viewsFor, get_open_lots_average_cost, openLotsOf, processLots, sellStep, sellEntry,
    lotUpdate, updateById, openAmount, openContrib]

/-! ### Claim C7: the worked example -/

/-- BUY 0.5 BTC at 50000 with fee 25 (lot A). -/
def dbLotA : DB :=
  (record_transaction emptyDB "BTC" .BUY (1/2) 50000 25 "AUD" none none none
    "2024-01-01 10:00:00" none).1

/-- Then BUY 0.3 BTC at 45000 with fee 15 (lot B). -/
def dbLotAB : DB :=
  (record_transaction dbLotA "BTC" .BUY (3/10) 45000 15 "AUD" none none none
    "2024-01-02 10:00:00" none).1

/-- Then SELL 0.2 BTC at 60000 with fee 12 under FIFO. -/
def dbFifoSell : DB :=
  (record_transaction dbLotAB "BTC" .SELL (1/5) 60000 12 "AUD" none none none
    "2024-01-03 10:00:00" (some .FIFO)).1

/-- The same SELL under LIFO instead. -/
def dbLifoSell : DB :=
  (record_transaction dbLotAB "BTC" .SELL (1/5) 60000 12 "AUD" none none none
    "2024-01-03 10:00:00" (some .LIFO)).1

/-- C7: in the worked scenario, lot A's cost-per-unit is 50050 and lot B's
is 45050; under FIFO the single realized entry consumes 0.2 of lot A with
cost basis 10010, proceeds 12000, fee allocation 12 (gain 1978 = 12000 −
10010 − 12), leaving lot A with 0.3 remaining (total cost 15015) and lot B
untouched; under LIFO the entry consumes 0.2 of lot B with cost basis 9010
and gain 2978, leaving lot B with 0.1 remaining and lot A untouched. -/
theorem claim_C7 :
    dbLotAB.lots.map Lot.cost_per_unit = [50050, 45050]
    ∧ dbFifoSell.realized_pnl
      = [⟨1, 3, 1, "BTC", 1/5, 10010, 60000, 12000, 1978, .FIFO,
          "2024-01-03 10:00:00"⟩]
    ∧ dbFifoSell.lots
      = [⟨1, 1, "BTC", 3/10, 50050, 15015, 25, "2024-01-01 10:00:00", false, none⟩,
         ⟨2, 2, "BTC", 3/10, 45050, 13515, 15, "2024-01-02 10:00:00", false, none⟩]
    ∧ dbLifoSell.realized_pnl
      = [⟨1, 3, 2, "BTC", 1/5, 9010, 60000, 12000, 2978, .LIFO,
          "2024-01-03 10:00:00"⟩]
    ∧ dbLifoSell.lots
      = [⟨1, 1, "BTC", 1/2, 50050, 25025, 25, "2024-01-01 10:00:00", false, none⟩,
         ⟨2, 2, "BTC", 1/10, 45050, 4505, 15, "2024-01-02 10:00:00", false, none⟩] := by
  have hdlt : ("2024-01-01 10:00:00" : String) < "2024-01-02 10:00:00" := by
    rw [String.lt_iff_toList_lt]; decide
  have hdne : ("2024-01-01 10:00:00" : String) ≠ "2024-01-02 10:00:00" := by decide
  have hdnlt : ¬ (("2024-01-02 10:00:00" : String) < "2024-01-01 10:00:00") := by
    rw [String.lt_iff_toList_lt]; decide
  norm_num [dbLifoSell, dbFifoSell, dbLotAB, dbLotA, record_transaction, emptyDB,
    process_sell_transaction, viewsFor, get_open_lots_fifo, get_open_lots_lifo,
    openLotsOf, List.insertionSort, List.orderedInsert, fifoR, lifoR, lotView,
    processLots, sellStep, sellEntry, lotUpdate, updateById, setAmount, closeLot,
    hdlt, hdne, hdnlt]

/-! ### Transaction-table effect of `record_transaction` -/

theorem process_sell_transactions (db : DB) (tid0 : Nat) (sym : String)
    (sa sp sf : ℚ) (sd : String) (m : AccountingMethod) :
    (process_sell_transaction db tid0 sym sa sp sf sd m).transactions
      = db.transactions := by
  rw [process_sell_eq_processLots]
  split <;> exact processLots_transactions tid0 sym sa sp sf sd m _ sa db

theorem record_transactions_eq (db : DB) (sym : String) (ty : TransactionType)
    (a p f : ℚ) (fc : String) (ex tid notes : Option String) (ts : String)
    (am : Option AccountingMethod) :
    (record_transaction db sym ty a p f fc ex tid notes ts am).1.transactions
      = db.transactions ++
        [⟨db.next_txn_id, ts, sym, ty, a, p, a * p, f, fc, ex, tid, notes⟩] := by
  cases ty with
  | BUY => rfl
  | SELL =>
    rw [record_sell_fst, process_sell_transactions]

theorem process_sell_realized_eq (db : DB) (tid0 : Nat) (sym : String)
    (sa sp sf : ℚ) (sd : String) (m : AccountingMethod) :
    (process_sell_transaction db tid0 sym sa sp sf sd m).realized_pnl
      = (processLots tid0 sym sa sp sf sd m (viewsFor db sym m) sa db).1.realized_pnl := by
  rw [process_sell_eq_processLots]
  split <;> rfl

theorem process_sell_lots_eq (db : DB) (tid0 : Nat) (sym : String)
    (sa sp sf : ℚ) (sd : String) (m : AccountingMethod) :
    (process_sell_transaction db tid0 sym sa sp sf sd m).lots
      = (processLots tid0 sym sa sp sf sd m (viewsFor db sym m) sa db).1.lots := by
  rw [process_sell_eq_processLots]
  split <;> rfl

theorem process_sell_warnings_eq (db : DB) (tid0 : Nat) (sym : String)
    (sa sp sf : ℚ) (sd : String) (m : AccountingMethod) :
    (process_sell_transaction db tid0 sym sa sp sf sd m).warnings
      = (if 0 < (processLots tid0 sym sa sp sf sd m (viewsFor db sym m) sa db).2 then
          db.warnings
            ++ [(sym, (processLots tid0 sym sa sp sf sd m (viewsFor db sym m) sa db).2)]
        else db.warnings) := by
  rw [process_sell_eq_processLots]
  split
  · show (processLots tid0 sym sa sp sf sd m (viewsFor db sym m) sa db).1.warnings
        ++ _ = _
    rw [processLots_warnings]
  · exact processLots_warnings tid0 sym sa sp sf sd m _ sa db

theorem getD_ne_avg (am : Option AccountingMethod)
    (ham : am ≠ some .AVERAGE_COST) : am.getD .FIFO ≠ .AVERAGE_COST := by
  cases am with
  | none => simp
  | some x =>
    simp only [Option.getD_some]
    intro hc
    exact ham (by rw [hc])

/-! ### Claim C9 -/

/-- C9: for every non-empty external id, `transaction_exists` returns false
in every state in which no transaction carries that external id, and
returns true immediately after `record_transaction` is called with that
external id. -/
theorem claim_C9 :
    (∀ (db : DB) (id0 : String), id0 ≠ "" →
      (∀ t ∈ db.transactions, t.transaction_id ≠ some id0) →
      transaction_exists db id0 = false)
    ∧ (∀ (db : DB) (sym : String) (ty : TransactionType) (a p f : ℚ) (fc : String)
        (ex notes : Option String) (ts : String) (am : Option AccountingMethod)
        (id0 : String), id0 ≠ "" →
        transaction_exists
          (record_transaction db sym ty a p f fc ex (some id0) notes ts am).1 id0
          = true) := by
  constructor
  · intro db id0 hid hnone
    simp only [transaction_exists, if_neg hid]
    rw [decide_eq_false_iff_not]
    simp only [not_lt, Nat.le_zero, List.countP_eq_zero]
    intro t ht
    simp only [beq_iff_eq]
    exact hnone t ht
  · intro db sym ty a p f fc ex notes ts am id0 hid
    simp only [transaction_exists, if_neg hid, record_transactions_eq]
    rw [decide_eq_true_eq]
    rw [List.countP_append]
    have : List.countP (fun t => t.transaction_id == some id0)
        [(⟨db.next_txn_id, ts, sym, ty, a, p, a * p, f, fc, ex, some id0, notes⟩ : Txn)]
        = 1 := by
      simp [List.countP_cons]
    omega

/-- C9 witness: concrete check on a fresh tracker with external id "tx1". -/
theorem claim_C9_witness :
    transaction_exists emptyDB "tx1" = false
    ∧ transaction_exists
        (record_transaction emptyDB "BTC" .BUY 1 100 0 "AUD" none (some "tx1") none
          "2024-01-01 00:00:00" none).1 "tx1" = true :=
  ⟨claim_C9.1 emptyDB "tx1" (by decide) (by intro t ht; cases ht),
   claim_C9.2 emptyDB "BTC" .BUY 1 100 0 "AUD" none none "2024-01-01 00:00:00"
     none "tx1" (by decide)⟩

/-! ### Claim C3 -/

/-- C3 (amended): for every SELL recorded via `record_transaction` under a
method other than AVERAGE_COST (open-lot amounts nonnegative, distinct lot
ids), the realized entries created cover exactly
`min(sell amount, open coverage)`; when the sell exceeds the coverage the
code appends a printed warning carrying the unmatched remainder, and
otherwise prints nothing; in all cases the caller receives only the new
transaction id, not a structured unresolved result. -/
theorem claim_C3 (db : DB) (sym : String) (sa sp sf : ℚ) (fc : String)
    (ex tid notes : Option String) (ts : String) (am : Option AccountingMethod)
    (ham : am ≠ some .AVERAGE_COST) (hN : (db.lots.map Lot.id).Nodup)
    (h0 : 0 ≤ sa)
    (hpos : ∀ l ∈ db.lots, l.symbol = sym → l.is_closed = false → 0 ≤ l.amount) :
    (∃ E : List PnlEntry,
      (record_transaction db sym .SELL sa sp sf fc ex tid notes ts am).1.realized_pnl
        = db.realized_pnl ++ E
      ∧ (E.map PnlEntry.amount).sum = min sa (openAmount sym db.lots))
    ∧ (openAmount sym db.lots < sa →
        (record_transaction db sym .SELL sa sp sf fc ex tid notes ts am).1.warnings
          = db.warnings ++ [(sym, sa - openAmount sym db.lots)])
    ∧ (sa ≤ openAmount sym db.lots →
        (record_transaction db sym .SELL sa sp sf fc ex tid notes ts am).1.warnings
          = db.warnings)
    ∧ (record_transaction db sym .SELL sa sp sf fc ex tid notes ts am).2
        = db.next_txn_id := by
  have hm : am.getD .FIFO ≠ .AVERAGE_COST := getD_ne_avg am ham
  rw [record_sell_fst]
  set db1 : DB :=
    { db with
        transactions := db.transactions ++
          [⟨db.next_txn_id, ts, sym, .SELL, sa, sp, sa * sp, sf, fc, ex, tid, notes⟩],
        next_txn_id := db.next_txn_id + 1 } with hdb1
  have hdb1lots : db1.lots = db.lots := rfl
  have hdb1real : db1.realized_pnl = db.realized_pnl := rfl
  have hdb1warn : db1.warnings = db.warnings := rfl
  have hN1 : (db1.lots.map Lot.id).Nodup := by rw [hdb1lots]; exact hN
  rcases viewsFor_not_avg db1 sym (am.getD .FIFO) hm with ⟨R, _instR, heq⟩
  have hnn : ∀ v ∈ viewsFor db1 sym (am.getD .FIFO), 0 ≤ v.amount := by
    rw [heq]
    refine sortViews_amount_nonneg R db1 sym ?_
    rw [hdb1lots]
    exact hpos
  have hsum : ((viewsFor db1 sym (am.getD .FIFO)).map LotView.amount).sum
      = openAmount sym db.lots := by
    rw [heq, sortViews_amount_sum, hdb1lots]
  have hrmax : (processLots db.next_txn_id sym sa sp sf ts (am.getD .FIFO)
      (viewsFor db1 sym (am.getD .FIFO)) sa db1).2
      = max 0 (sa - openAmount sym db.lots) := by
    rw [processLots_r_max db.next_txn_id sym sa sp sf ts (am.getD .FIFO) _ sa db1 h0 hnn,
      hsum]
  refine ⟨?_, ?_, ?_, rfl⟩
  · rcases processLots_realized_append db.next_txn_id sym sa sp sf ts (am.getD .FIFO)
      (viewsFor db1 sym (am.getD .FIFO)) sa db1 with ⟨E, h1, h2, _⟩
    refine ⟨E, ?_, ?_⟩
    · rw [process_sell_realized_eq, h1, hdb1real]
    · rw [h2, hrmax]
      rcases le_total sa (openAmount sym db.lots) with hc | hc
      · rw [max_eq_left (by linarith), min_eq_left hc, sub_zero]
      · rw [max_eq_right (by linarith), min_eq_right hc]
        ring
  · intro hlt
    rw [process_sell_warnings_eq, hrmax]
    rw [max_eq_right (by linarith)]
    rw [if_pos (by linarith), hdb1warn]
  · intro hge
    rw [process_sell_warnings_eq, hrmax]
    rw [max_eq_left (by linarith)]
    simp [hdb1warn]

/-- A larger initial BUY of 1.5 BTC, enough to cover the 1.5 SELL. -/
def dbBuyBig : DB :=
  (record_transaction emptyDB "BTC" .BUY (3/2) 100 0 "AUD" none none none
    "2024-01-01 00:00:00" none).1

/-- C3 counterexample: after BUY 1.0, recording an oversold SELL 1.5
creates entries covering only 1.0 (≠ 1.5), yet the value handed back to
the caller is the bare transaction id 2 — exactly the same value a fully
covered SELL 1.5 (after BUY 1.5) returns, so the result returned to the
caller is not a structured unresolved/partial flag. -/
theorem claim_C3_counterexample :
    (record_transaction dbBuyOne "BTC" .SELL (3/2) 120 0 "AUD" none none none
      "2024-01-02 00:00:00" none).2
      = (record_transaction dbBuyBig "BTC" .SELL (3/2) 120 0 "AUD" none none none
        "2024-01-02 00:00:00" none).2
    ∧ (((record_transaction dbBuyOne "BTC" .SELL (3/2) 120 0 "AUD" none none none
        "2024-01-02 00:00:00" none).1.realized_pnl.map PnlEntry.amount).sum = 1)
    ∧ (1 : ℚ) ≠ 3/2 := by
  refine ⟨rfl, ?_, by norm_num⟩
  norm_num [dbBuyOne, record_transaction, emptyDB, process_sell_transaction,
    viewsFor, get_open_lots_fifo, openLotsOf, List.insertionSort, List.orderedInsert,
    fifoR, lotView, processLots, sellStep, sellEntry, lotUpdate, updateById,
    setAmount, closeLot]

/-- C3 witness: the amended theorem applied to the oversell scenario
BUY 1.0 then SELL 1.5 under the default method. -/
theorem claim_C3_witness :
    ((dbBuyOne.lots.map Lot.id).Nodup ∧ (0 : ℚ) ≤ 3/2)
    ∧ ((∃ E : List PnlEntry,
        (record_transaction dbBuyOne "BTC" .SELL (3/2) 120 0 "AUD" none none none
          "2024-01-02 00:00:00" none).1.realized_pnl
          = dbBuyOne.realized_pnl ++ E
        ∧ (E.map PnlEntry.amount).sum = min (3/2) (openAmount "BTC" dbBuyOne.lots))
      ∧ (openAmount "BTC" dbBuyOne.lots < 3/2 →
          (record_transaction dbBuyOne "BTC" .SELL (3/2) 120 0 "AUD" none none none
            "2024-01-02 00:00:00" none).1.warnings
            = dbBuyOne.warnings ++ [("BTC", 3/2 - openAmount "BTC" dbBuyOne.lots)])
      ∧ ((3/2 : ℚ) ≤ openAmount "BTC" dbBuyOne.lots →
          (record_transaction dbBuyOne "BTC" .SELL (3/2) 120 0 "AUD" none none none
            "2024-01-02 00:00:00" none).1.warnings = dbBuyOne.warnings)
      ∧ (record_transaction dbBuyOne "BTC" .SELL (3/2) 120 0 "AUD" none none none
          "2024-01-02 00:00:00" none).2 = dbBuyOne.next_txn_id) :=
  ⟨⟨by decide, by norm_num⟩,
   claim_C3 dbBuyOne "BTC" (3/2) 120 0 "AUD" none none none "2024-01-02 00:00:00"
     none (by decide) (by decide) (by norm_num)
     (by norm_num [dbBuyOne, record_transaction, emptyDB])⟩

/-! ### Claim C4 -/

/-- C4 (amended): `record_transaction` performs no validation: even with a
non-positive amount or price it does not fail, it inserts the transaction
row, and on BUY it also inserts a cost-basis lot whose cost-per-unit is
computed as 0 when the amount is not positive. -/
theorem claim_C4 (db : DB) (sym : String) (ty : TransactionType) (a p f : ℚ)
    (fc : String) (ex tid notes : Option String) (ts : String)
    (am : Option AccountingMethod) (_h : a ≤ 0 ∨ p ≤ 0) :
    (record_transaction db sym ty a p f fc ex tid notes ts am).1.transactions
      = db.transactions ++
        [⟨db.next_txn_id, ts, sym, ty, a, p, a * p, f, fc, ex, tid, notes⟩]
    ∧ (ty = .BUY →
        (record_transaction db sym ty a p f fc ex tid notes ts am).1.lots
          = db.lots ++ [⟨db.next_lot_id, db.next_txn_id, sym, a,
              (if 0 < a then (a * p + f) / a else 0), a * p + f, f, ts, false,
              none⟩]) := by
  constructor
  · exact record_transactions_eq db sym ty a p f fc ex tid notes ts am
  · intro hty
    subst hty
    rfl

/-- C4 witness: recording a BUY with amount −1 at price 50 succeeds and
still inserts both rows. -/
theorem claim_C4_witness :
    ((-1 : ℚ) ≤ 0 ∨ (50 : ℚ) ≤ 0)
    ∧ ((record_transaction emptyDB "BTC" .BUY (-1) 50 0 "AUD" none none none
          "2024-01-01 00:00:00" none).1.transactions
        = emptyDB.transactions ++
          [⟨emptyDB.next_txn_id, "2024-01-01 00:00:00", "BTC", .BUY, -1, 50,
            (-1) * 50, 0, "AUD", none, none, none⟩]
      ∧ (TransactionType.BUY = .BUY →
          (record_transaction emptyDB "BTC" .BUY (-1) 50 0 "AUD" none none none
            "2024-01-01 00:00:00" none).1.lots
            = emptyDB.lots ++ [⟨emptyDB.next_lot_id, emptyDB.next_txn_id, "BTC", -1,
                (if 0 < (-1 : ℚ) then ((-1) * 50 + 0) / (-1) else 0), (-1) * 50 + 0,
                0, "2024-01-01 00:00:00", false, none⟩])) :=
  ⟨Or.inl (by norm_num),
   claim_C4 emptyDB "BTC" .BUY (-1) 50 0 "AUD" none none none "2024-01-01 00:00:00"
     none (Or.inl (by norm_num))⟩

/-- C4 counterexample: with a negative amount, the claim's "no transaction
row, cost-basis lot ... is created" is false: after recording BUY −1 at 50
into a fresh tracker, one transaction row and one lot row exist. -/
theorem claim_C4_counterexample :
    (record_transaction emptyDB "BTC" .BUY (-1) 50 0 "AUD" none none none
      "2024-01-01 00:00:00" none).1.transactions.length = 1
    ∧ (record_transaction emptyDB "BTC" .BUY (-1) 50 0 "AUD" none none none
      "2024-01-01 00:00:00" none).1.lots.length = 1 := by
  exact ⟨rfl, rfl⟩

/-! ### Claim C6 -/

/-- The FIFO consumption order on lot views: earlier purchase date first,
ties broken by ascending lot id. -/
def viewFifoOrdered (u v : LotView) : Prop :=
  ∀ x y, u.purchase_date = some x → v.purchase_date = some y →
    (x < y ∨ (x = y ∧ u.id ≤ v.id))

/-- The LIFO consumption order on lot views: later purchase date first,
ties broken by descending lot id. -/
def viewLifoOrdered (u v : LotView) : Prop :=
  ∀ x y, u.purchase_date = some x → v.purchase_date = some y →
    (y < x ∨ (x = y ∧ v.id ≤ u.id))

/-- C6: `_get_open_lots_fifo` returns exactly the open lots of the symbol,
arranged purchase-date ascending with ties by id ascending, and
`_get_open_lots_lifo` the same set purchase-date descending with ties by
id descending; in a SELL, `_process_sell_transaction` emits its realized
entries against exactly a prefix of that ordered list (earliest-purchased
lot first under FIFO, latest first under LIFO). -/
theorem claim_C6 : ∀ (db : DB) (sym : String),
    (get_open_lots_fifo db sym).Perm ((openLotsOf db sym).map lotView)
    ∧ List.Pairwise viewFifoOrdered (get_open_lots_fifo db sym)
    ∧ (get_open_lots_lifo db sym).Perm ((openLotsOf db sym).map lotView)
    ∧ List.Pairwise viewLifoOrdered (get_open_lots_lifo db sym)
    ∧ (∀ (tid0 : Nat) (sa sp sf : ℚ) (sd : String),
        (∃ E : List PnlEntry,
          (process_sell_transaction db tid0 sym sa sp sf sd .FIFO).realized_pnl
            = db.realized_pnl ++ E
          ∧ E.map PnlEntry.lot_id
              = ((get_open_lots_fifo db sym).map LotView.id).take E.length)
        ∧ (∃ E : List PnlEntry,
          (process_sell_transaction db tid0 sym sa sp sf sd .LIFO).realized_pnl
            = db.realized_pnl ++ E
          ∧ E.map PnlEntry.lot_id
              = ((get_open_lots_lifo db sym).map LotView.id).take E.length)) := by
  intro db sym
  refine ⟨sortViews_perm fifoR db sym, ?_, sortViews_perm lifoR db sym, ?_, ?_⟩
  · have hs : List.Pairwise fifoR (List.insertionSort fifoR (openLotsOf db sym)) :=
      List.sorted_insertionSort fifoR (openLotsOf db sym)
    refine hs.map lotView ?_
    intro a b hab x y hx hy
    have hxa : x = a.purchase_date := by
      have : some a.purchase_date = some x := hx
      exact (Option.some_injective String this).symm
    have hyb : y = b.purchase_date := by
      have : some b.purchase_date = some y := hy
      exact (Option.some_injective String this).symm
    subst hxa
    subst hyb
    exact hab
  · have hs : List.Pairwise lifoR (List.insertionSort lifoR (openLotsOf db sym)) :=
      List.sorted_insertionSort lifoR (openLotsOf db sym)
    refine hs.map lotView ?_
    intro a b hab x y hx hy
    have hxa : x = a.purchase_date := by
      have : some a.purchase_date = some x := hx
      exact (Option.some_injective String this).symm
    have hyb : y = b.purchase_date := by
      have : some b.purchase_date = some y := hy
      exact (Option.some_injective String this).symm
    subst hxa
    subst hyb
    exact hab
  · intro tid0 sa sp sf sd
    constructor
    · rcases processLots_realized_append tid0 sym sa sp sf sd .FIFO
        (viewsFor db sym .FIFO) sa db with ⟨E, h1, _, h3⟩
      refine ⟨E, ?_, h3⟩
      rw [process_sell_realized_eq]
      exact h1
    · rcases processLots_realized_append tid0 sym sa sp sf sd .LIFO
        (viewsFor db sym .LIFO) sa db with ⟨E, h1, _, h3⟩
      refine ⟨E, ?_, h3⟩
      rw [process_sell_realized_eq]
      exact h1

/-- C6 witness: the FIFO view list of the worked two-lot scenario is a
permutation of its open lots. -/
theorem claim_C6_witness :
    (get_open_lots_fifo dbLotAB "BTC").Perm ((openLotsOf dbLotAB "BTC").map lotView) :=
  (claim_C6 dbLotAB "BTC").1

/-! ### Claim C8 -/

theorem foldl_gain_pair : ∀ (rows : List TradeRow) (a b : ℚ),
    rows.foldl
      (fun (p : ℚ × ℚ) t =>
        if 0 < t.gain_loss then (p.1 + t.gain_loss, p.2) else (p.1, p.2 + |t.gain_loss|))
      (a, b)
    = (a + (rows.map (fun t => if 0 < t.gain_loss then t.gain_loss else 0)).sum,
       b + (rows.map (fun t => if 0 < t.gain_loss then 0 else |t.gain_loss|)).sum) := by
  intro rows
  induction rows with
  | nil => intro a b; simp
  | cons t rest ih =>
    intro a b
    rw [List.foldl_cons]
    by_cases h : 0 < t.gain_loss
    · rw [if_pos h, ih]
      simp only [List.map_cons, List.sum_cons, if_pos h, Prod.mk.injEq]
      constructor <;> ring
    · rw [if_neg h, ih]
      simp only [List.map_cons, List.sum_cons, if_neg h, Prod.mk.injEq]
      constructor <;> ring

/-- C8: the tax report counts exactly the realized entries whose sale date
lies in `[Jan 1 00:00:00, Dec 31 23:59:59]` of the year and whose
accounting method matches; the per-symbol rows are the grouped sums in
ascending symbol order; `total_gains` is the sum of the positive
per-symbol gain/loss sums, `total_losses` the sum of the magnitudes of the
non-positive ones, and `net_gain_loss = total_gains − total_losses`. -/
theorem claim_C8 (db : DB) (year : Nat) (am : Option AccountingMethod) :
    (∀ e ∈ db.realized_pnl,
      (e ∈ db.realized_pnl.filter (inYear year (am.getD .FIFO))
        ↔ (yearStart year ≤ e.sale_date ∧ e.sale_date ≤ yearEnd year
            ∧ e.accounting_method = am.getD .FIFO)))
    ∧ (generate_tax_report db year am).trades.map TradeRow.symbol
        = List.insertionSort (fun a b => a ≤ b)
            ((db.realized_pnl.filter (inYear year (am.getD .FIFO))).map
              PnlEntry.symbol).dedup
    ∧ (∀ t ∈ (generate_tax_report db year am).trades,
        t.gain_loss
          = (((db.realized_pnl.filter (inYear year (am.getD .FIFO))).filter
              (fun e => e.symbol == t.symbol)).map PnlEntry.realized_gain_loss).sum
        ∧ t.amount_sold
          = (((db.realized_pnl.filter (inYear year (am.getD .FIFO))).filter
              (fun e => e.symbol == t.symbol)).map PnlEntry.amount).sum)
    ∧ (generate_tax_report db year am).total_gains
        = ((generate_tax_report db year am).trades.map
            (fun t => if 0 < t.gain_loss then t.gain_loss else 0)).sum
    ∧ (generate_tax_report db year am).total_losses
        = ((generate_tax_report db year am).trades.map
            (fun t => if 0 < t.gain_loss then 0 else |t.gain_loss|)).sum
    ∧ (generate_tax_report db year am).net_gain_loss
        = (generate_tax_report db year am).total_gains
          - (generate_tax_report db year am).total_losses := by
  refine ⟨?_, ?_, ?_, ?_, ?_, rfl⟩
  · intro e he
    rw [List.mem_filter]
    simp [he, inYear, and_assoc]
  · show ((List.insertionSort (fun a b => a ≤ b)
        ((db.realized_pnl.filter (inYear year (am.getD .FIFO))).map
          PnlEntry.symbol).dedup).map
        (rowFor (db.realized_pnl.filter (inYear year (am.getD .FIFO))))).map
        TradeRow.symbol = _
    rw [List.map_map]
    show List.map (fun s => s) _ = _
    rw [List.map_id']
  · intro t ht
    have ht' : t ∈ (List.insertionSort (fun a b => a ≤ b)
        ((db.realized_pnl.filter (inYear year (am.getD .FIFO))).map
          PnlEntry.symbol).dedup).map
        (rowFor (db.realized_pnl.filter (inYear year (am.getD .FIFO)))) := ht
    rcases List.mem_map.mp ht' with ⟨s, _, rfl⟩
    exact ⟨rfl, rfl⟩
  · show ((List.insertionSort (fun a b => a ≤ b)
        ((db.realized_pnl.filter (inYear year (am.getD .FIFO))).map
          PnlEntry.symbol).dedup).map
        (rowFor (db.realized_pnl.filter (inYear year (am.getD .FIFO)))) |>.foldl
        (fun (p : ℚ × ℚ) t =>
          if 0 < t.gain_loss then (p.1 + t.gain_loss, p.2)
          else (p.1, p.2 + |t.gain_loss|)) (0, 0)).1
      = (((List.insertionSort (fun a b => a ≤ b)
          ((db.realized_pnl.filter (inYear year (am.getD .FIFO))).map
            PnlEntry.symbol).dedup).map
          (rowFor (db.realized_pnl.filter (inYear year (am.getD .FIFO))))).map
          (fun t => if 0 < t.gain_loss then t.gain_loss else 0)).sum
    rw [foldl_gain_pair]
    exact zero_add _
  · show ((List.insertionSort (fun a b => a ≤ b)
        ((db.realized_pnl.filter (inYear year (am.getD .FIFO))).map
          PnlEntry.symbol).dedup).map
        (rowFor (db.realized_pnl.filter (inYear year (am.getD .FIFO)))) |>.foldl
        (fun (p : ℚ × ℚ) t =>
          if 0 < t.gain_loss then (p.1 + t.gain_loss, p.2)
          else (p.1, p.2 + |t.gain_loss|)) (0, 0)).2
      = (((List.insertionSort (fun a b => a ≤ b)
          ((db.realized_pnl.filter (inYear year (am.getD .FIFO))).map
            PnlEntry.symbol).dedup).map
          (rowFor (db.realized_pnl.filter (inYear year (am.getD .FIFO))))).map
          (fun t => if 0 < t.gain_loss then 0 else |t.gain_loss|)).sum
    rw [foldl_gain_pair]
    exact zero_add _

/-- One concrete realized entry used to witness the tax-report claim. -/
def taxEntryX : PnlEntry :=
  ⟨1, 1, 1, "BTC", 1, 100, 120, 120, 20, .FIFO, "2024-01-03 10:00:00"⟩

/-- A database whose realized-P&L table holds just `taxEntryX`. -/
def dbTaxX : DB := ⟨[], [], [taxEntryX], 1, 1, 2, []⟩

/-- C8 witness: the membership characterisation applied to the concrete
entry, and the net-gain equation of its report. -/
theorem claim_C8_witness :
    (taxEntryX ∈ dbTaxX.realized_pnl.filter (inYear 2024 ((none : Option AccountingMethod).getD .FIFO))
      ↔ (yearStart 2024 ≤ taxEntryX.sale_date ∧ taxEntryX.sale_date ≤ yearEnd 2024
          ∧ taxEntryX.accounting_method = (none : Option AccountingMethod).getD .FIFO))
    ∧ (generate_tax_report dbTaxX 2024 none).net_gain_loss
        = (generate_tax_report dbTaxX 2024 none).total_gains
          - (generate_tax_report dbTaxX 2024 none).total_losses :=
  ⟨(claim_C8 dbTaxX 2024 none).1 taxEntryX (by simp [dbTaxX]),
   (claim_C8 dbTaxX 2024 none).2.2.2.2.2⟩

/-! ### Claim C10 -/

theorem getElem?_some_mem {α : Type} {L : List α} {i : Nat} {a : α}
    (h : L[i]? = some a) : a ∈ L := by
  rcases List.getElem?_eq_some.mp h with ⟨hlt, hget⟩
  exact hget ▸ List.getElem_mem hlt

theorem not_in_views_of_frame (db : DB) (sym : String) (m : AccountingMethod)
    (hm : m ≠ .AVERAGE_COST) (hN : (db.lots.map Lot.id).Nodup) (l : Lot)
    (hl : l ∈ db.lots) (hcond : l.symbol ≠ sym ∨ l.is_closed = true) :
    l.id ∉ (viewsFor db sym m).map LotView.id := by
  intro hmem
  rcases viewsFor_not_avg db sym m hm with ⟨R, _instR, heq⟩
  rw [heq, sortViews_map_id] at hmem
  rcases List.mem_map.mp hmem with ⟨l', hl', hid⟩
  have hl'o : l' ∈ openLotsOf db sym :=
    (List.perm_insertionSort R (openLotsOf db sym)).mem_iff.mp hl'
  rcases (openLotsOf_mem db sym l').mp hl'o with ⟨hl'db, hsym', hopen'⟩
  have heql : l' = l := List.inj_on_of_nodup_map hN hl'db hl hid
  subst heql
  rcases hcond with h | h
  · exact h hsym'
  · rw [hopen'] at h
    cases h

/-- C10: a BUY only appends one transaction row and one lot row (realized
entries untouched); a SELL under FIFO or LIFO appends one transaction row,
only appends realized entries, keeps the lot table the same length, and
leaves every lot of another symbol and every already-closed lot unchanged
in place. -/
theorem claim_C10 :
    (∀ (db : DB) (sym : String) (a p f : ℚ) (fc : String)
        (ex tid notes : Option String) (ts : String) (am : Option AccountingMethod),
      (record_transaction db sym .BUY a p f fc ex tid notes ts am).1.transactions
        = db.transactions
          ++ [⟨db.next_txn_id, ts, sym, .BUY, a, p, a * p, f, fc, ex, tid, notes⟩]
      ∧ (record_transaction db sym .BUY a p f fc ex tid notes ts am).1.lots
        = db.lots ++ [⟨db.next_lot_id, db.next_txn_id, sym, a,
            (if 0 < a then (a * p + f) / a else 0), a * p + f, f, ts, false, none⟩]
      ∧ (record_transaction db sym .BUY a p f fc ex tid notes ts am).1.realized_pnl
        = db.realized_pnl)
    ∧ (∀ (db : DB) (sym : String) (a p f : ℚ) (fc : String)
        (ex tid notes : Option String) (ts : String) (m : AccountingMethod),
        (m = .FIFO ∨ m = .LIFO) → (db.lots.map Lot.id).Nodup →
      (record_transaction db sym .SELL a p f fc ex tid notes ts (some m)).1.transactions
        = db.transactions
          ++ [⟨db.next_txn_id, ts, sym, .SELL, a, p, a * p, f, fc, ex, tid, notes⟩]
      ∧ (record_transaction db sym .SELL a p f fc ex tid notes ts
          (some m)).1.realized_pnl.take db.realized_pnl.length = db.realized_pnl
      ∧ (record_transaction db sym .SELL a p f fc ex tid notes ts (some m)).1.lots.length
        = db.lots.length
      ∧ (∀ (i : Nat) (l : Lot), db.lots[i]? = some l →
          (l.symbol ≠ sym ∨ l.is_closed = true) →
          (record_transaction db sym .SELL a p f fc ex tid notes ts (some m)).1.lots[i]?
            = some l)) := by
  constructor
  · intro db sym a p f fc ex tid notes ts am
    exact ⟨record_transactions_eq db sym .BUY a p f fc ex tid notes ts am, rfl, rfl⟩
  · intro db sym a p f fc ex tid notes ts m hm hN
    have hmne : (some m).getD AccountingMethod.FIFO ≠ .AVERAGE_COST := by
      rcases hm with rfl | rfl <;> decide
    refine ⟨record_transactions_eq db sym .SELL a p f fc ex tid notes ts (some m),
      ?_, ?_, ?_⟩
    · rw [record_sell_fst, process_sell_realized_eq]
      rcases processLots_realized_append db.next_txn_id sym a p f ts
        ((some m).getD .FIFO) _ a _ with ⟨E, h1, _, _⟩
      rw [h1]
      exact List.take_left db.realized_pnl E
    · rw [record_sell_fst, process_sell_lots_eq, processLots_lots_length]
    · intro i l hget hcond
      rw [record_sell_fst, process_sell_lots_eq]
      set db1 : DB :=
        { db with
            transactions := db.transactions ++
              [⟨db.next_txn_id, ts, sym, .SELL, a, p, a * p, f, fc, ex, tid, notes⟩],
            next_txn_id := db.next_txn_id + 1 } with hdb1
      have hget1 : db1.lots[i]? = some l := hget
      have hl1 : l ∈ db1.lots := getElem?_some_mem hget1
      have hN1 : (db1.lots.map Lot.id).Nodup := hN
      have hnot : l.id ∉ (viewsFor db1 sym ((some m).getD .FIFO)).map LotView.id :=
        not_in_views_of_frame db1 sym ((some m).getD .FIFO) hmne hN1 l hl1 hcond
      exact processLots_lots_getElem? db.next_txn_id sym a p f ts
        ((some m).getD .FIFO) _ a db1 i l hget1 hnot

/-- C10 witness: selling a symbol with no open lots (ETH) after the BTC
buy leaves the BTC lot untouched in place. -/
theorem claim_C10_witness :
    (dbBuyOne.lots.map Lot.id).Nodup
    ∧ ((record_transaction dbBuyOne "ETH" .SELL 1 50 0 "AUD" none none none
        "2024-01-02 00:00:00" (some .FIFO)).1.transactions
        = dbBuyOne.transactions
          ++ [⟨dbBuyOne.next_txn_id, "2024-01-02 00:00:00", "ETH", .SELL, 1, 50,
              1 * 50, 0, "AUD", none, none, none⟩]
      ∧ (record_transaction dbBuyOne "ETH" .SELL 1 50 0 "AUD" none none none
          "2024-01-02 00:00:00" (some .FIFO)).1.realized_pnl.take
          dbBuyOne.realized_pnl.length = dbBuyOne.realized_pnl
      ∧ (record_transaction dbBuyOne "ETH" .SELL 1 50 0 "AUD" none none none
          "2024-01-02 00:00:00" (some .FIFO)).1.lots.length = dbBuyOne.lots.length
      ∧ (∀ (i : Nat) (l : Lot), dbBuyOne.lots[i]? = some l →
          (l.symbol ≠ "ETH" ∨ l.is_closed = true) →
          (record_transaction dbBuyOne "ETH" .SELL 1 50 0 "AUD" none none none
            "2024-01-02 00:00:00" (some .FIFO)).1.lots[i]? = some l)) :=
  ⟨by decide,
   claim_C10.2 dbBuyOne "ETH" 1 50 0 "AUD" none none none "2024-01-02 00:00:00"
     .FIFO (Or.inl rfl) (by decide)⟩

/-! ### Claim C5: reachable states and terminal closed lots -/

/-- The arguments of one `record_transaction` call. -/
structure Op where
  symbol : String
  transaction_type : TransactionType
  amount : ℚ
  price_per_unit : ℚ
  fee : ℚ
  fee_currency : String
  exchange : Option String
  transaction_id : Option String
  notes : Option String
  timestamp : String
  accounting_method : Option AccountingMethod
deriving DecidableEq

/-- Apply one `record_transaction` call to the database. -/
def applyOp (db : DB) (o : Op) : DB :=
  (record_transaction db o.symbol o.transaction_type o.amount o.price_per_unit
    o.fee o.fee_currency o.exchange o.transaction_id o.notes o.timestamp
    o.accounting_method).1

/-- The database reached by a sequence of `record_transaction` calls on a
fresh tracker. -/
def runOps (ops : List Op) : DB := ops.foldl applyOp emptyDB

/-- How a persisted lot can evolve during sell processing: its id is
stable, and either its closure fields are untouched or it has been closed
with a closed date. -/
def lotEvolved (l' l : Lot) : Prop :=
  l'.id = l.id
  ∧ ((l'.is_closed = l.is_closed ∧ l'.closed_date = l.closed_date)
      ∨ (l'.is_closed = true ∧ l'.closed_date ≠ none))

theorem lotEvolved_refl (l : Lot) : lotEvolved l l := ⟨rfl, Or.inl ⟨rfl, rfl⟩⟩

theorem lotEvolved_trans {l3 l2 l1 : Lot} (h32 : lotEvolved l3 l2)
    (h21 : lotEvolved l2 l1) : lotEvolved l3 l1 := by
  obtain ⟨hid32, h32⟩ := h32
  obtain ⟨hid21, h21⟩ := h21
  refine ⟨hid32.trans hid21, ?_⟩
  rcases h32 with ⟨hc32, hd32⟩ | hB
  · rcases h21 with ⟨hc21, hd21⟩ | hB
    · exact Or.inl ⟨hc32.trans hc21, hd32.trans hd21⟩
    · exact Or.inr ⟨hc32.trans hB.1, hd32 ▸ hB.2⟩
  · exact Or.inr hB

theorem lotUpdate_evolved (sd : String) (v : LotView) (c : ℚ) (L : List Lot) :
    ∀ l' ∈ lotUpdate sd v c L, ∃ l ∈ L, lotEvolved l' l := by
  unfold lotUpdate
  split <;> intro l' h <;> rcases List.mem_map.mp h with ⟨l, hl, rfl⟩ <;>
    by_cases hid : l.id = v.id
  · refine ⟨l, hl, ?_⟩
    rw [if_pos hid]
    exact ⟨rfl, Or.inr ⟨rfl, by simp [closeLot]⟩⟩
  · refine ⟨l, hl, ?_⟩
    rw [if_neg hid]
    exact lotEvolved_refl l
  · refine ⟨l, hl, ?_⟩
    rw [if_pos hid]
    exact ⟨rfl, Or.inl ⟨rfl, rfl⟩⟩
  · refine ⟨l, hl, ?_⟩
    rw [if_neg hid]
    exact lotEvolved_refl l

section ProcessLotsMore

variable (tid : Nat) (sym : String) (sa sp sf : ℚ) (sd : String) (am : AccountingMethod)

theorem processLots_next_lot_id : ∀ (views : List LotView) (r : ℚ) (db : DB),
    (processLots tid sym sa sp sf sd am views r db).1.next_lot_id
      = db.next_lot_id := by
  intro views
  induction views with
  | nil => intro r db; rfl
  | cons v rest ih =>
    intro r db
    by_cases hr : r ≤ 0
    · rw [processLots_stop tid sym sa sp sf sd am v rest r db hr]
    · rw [processLots_cons tid sym sa sp sf sd am v rest r db hr, ih]
      rfl

theorem processLots_evolved : ∀ (views : List LotView) (r : ℚ) (db : DB),
    ∀ l' ∈ (processLots tid sym sa sp sf sd am views r db).1.lots,
      ∃ l ∈ db.lots, lotEvolved l' l := by
  intro views
  induction views with
  | nil => intro r db l' h; exact ⟨l', h, lotEvolved_refl l'⟩
  | cons v rest ih =>
    intro r db l' h
    by_cases hr : r ≤ 0
    · rw [processLots_stop tid sym sa sp sf sd am v rest r db hr] at h
      exact ⟨l', h, lotEvolved_refl l'⟩
    · rw [processLots_cons tid sym sa sp sf sd am v rest r db hr] at h
      rcases ih (r - min r v.amount) (sellStep tid sym sa sp sf sd am v r db) l' h
        with ⟨l2, hl2, hev2⟩
      have hl2' : l2 ∈ lotUpdate sd v (min r v.amount) db.lots := hl2
      rcases lotUpdate_evolved sd v (min r v.amount) db.lots l2 hl2' with ⟨l, hl, hev1⟩
      exact ⟨l, hl, lotEvolved_trans hev2 hev1⟩

end ProcessLotsMore

theorem process_sell_next_lot_id (db : DB) (tid0 : Nat) (sym : String)
    (sa sp sf : ℚ) (sd : String) (m : AccountingMethod) :
    (process_sell_transaction db tid0 sym sa sp sf sd m).next_lot_id
      = db.next_lot_id := by
  rw [process_sell_eq_processLots]
  split <;> exact processLots_next_lot_id tid0 sym sa sp sf sd m _ sa db

theorem record_buy_lots (db : DB) (sym : String) (a p f : ℚ) (fc : String)
    (ex tid notes : Option String) (ts : String) (am : Option AccountingMethod) :
    (record_transaction db sym .BUY a p f fc ex tid notes ts am).1.lots
      = db.lots ++ [⟨db.next_lot_id, db.next_txn_id, sym, a,
          (if 0 < a then (a * p + f) / a else 0), a * p + f, f, ts, false, none⟩] := rfl

/-- The state invariant maintained by every `record_transaction` call:
lot ids are distinct, positive and below the id counter, and every closed
lot has a closed date. -/
def GoodDB (db : DB) : Prop :=
  (db.lots.map Lot.id).Nodup
  ∧ (∀ l ∈ db.lots, 1 ≤ l.id ∧ l.id < db.next_lot_id)
  ∧ 1 ≤ db.next_lot_id
  ∧ (∀ l ∈ db.lots, l.is_closed = true → l.closed_date ≠ none)

theorem goodDB_empty : GoodDB emptyDB := by
  refine ⟨by simp [emptyDB], by simp [emptyDB], by simp [emptyDB], by simp [emptyDB]⟩

theorem goodDB_record (db : DB) (h : GoodDB db) (sym : String)
    (ty : TransactionType) (a p f : ℚ) (fc : String) (ex tid notes : Option String)
    (ts : String) (am : Option AccountingMethod) :
    GoodDB (record_transaction db sym ty a p f fc ex tid notes ts am).1 := by
  obtain ⟨h1, h2, h3, h4⟩ := h
  cases ty with
  | BUY =>
    have hlots := record_buy_lots db sym a p f fc ex tid notes ts am
    have hnext : (record_transaction db sym .BUY a p f fc ex tid notes ts am).1.next_lot_id
        = db.next_lot_id + 1 := rfl
    refine ⟨?_, ?_, ?_, ?_⟩
    · rw [hlots]
      simp only [List.map_append, List.map_cons, List.map_nil]
      rw [List.nodup_append]
      refine ⟨h1, List.nodup_singleton _, ?_⟩
      intro x hx1 hx2
      rcases List.mem_map.mp hx1 with ⟨l, hl, rfl⟩
      have hlt := (h2 l hl).2
      rw [List.mem_singleton] at hx2
      have heqid : l.id = db.next_lot_id := hx2
      omega
    · rw [hlots, hnext]
      intro l hl
      rcases List.mem_append.mp hl with hl' | hl'
      · have := h2 l hl'; omega
      · rcases List.mem_singleton.mp hl' with rfl
        show 1 ≤ db.next_lot_id ∧ db.next_lot_id < db.next_lot_id + 1
        omega
    · rw [hnext]; omega
    · rw [hlots]
      intro l hl hcl
      rcases List.mem_append.mp hl with hl' | hl'
      · exact h4 l hl' hcl
      · rcases List.mem_singleton.mp hl' with rfl
        cases hcl
  | SELL =>
    rw [record_sell_fst]
    set db1 : DB :=
      { db with
          transactions := db.transactions ++
            [⟨db.next_txn_id, ts, sym, .SELL, a, p, a * p, f, fc, ex, tid, notes⟩],
          next_txn_id := db.next_txn_id + 1 } with hdb1
    have h1' : (db1.lots.map Lot.id).Nodup := h1
    have h2' : ∀ l ∈ db1.lots, 1 ≤ l.id ∧ l.id < db1.next_lot_id := h2
    have h4' : ∀ l ∈ db1.lots, l.is_closed = true → l.closed_date ≠ none := h4
    have hlots := process_sell_lots_eq db1 db.next_txn_id sym a p f ts
      (am.getD .FIFO)
    have hnext := process_sell_next_lot_id db1 db.next_txn_id sym a p f ts
      (am.getD .FIFO)
    refine ⟨?_, ?_, ?_, ?_⟩
    · rw [hlots, processLots_lots_map_id]
      exact h1'
    · rw [hlots, hnext]
      intro l' hl'
      rcases processLots_evolved db.next_txn_id sym a p f ts (am.getD .FIFO) _ a db1
        l' hl' with ⟨l, hl, hev⟩
      rw [hev.1]
      exact h2' l hl
    · rw [hnext]; exact h3
    · rw [hlots]
      intro l' hl' hcl
      rcases processLots_evolved db.next_txn_id sym a p f ts (am.getD .FIFO) _ a db1
        l' hl' with ⟨l, hl, hev⟩
      rcases hev.2 with ⟨hc, hd⟩ | ⟨_, hd⟩
      · rw [hd]
        exact h4' l hl (hc ▸ hcl)
      · exact hd

theorem goodDB_applyOp (db : DB) (h : GoodDB db) (o : Op) :
    GoodDB (applyOp db o) :=
  goodDB_record db h o.symbol o.transaction_type o.amount o.price_per_unit o.fee
    o.fee_currency o.exchange o.transaction_id o.notes o.timestamp
    o.accounting_method

theorem goodDB_runOps (ops : List Op) : GoodDB (runOps ops) := by
  have hgen : ∀ (l : List Op) (db : DB), GoodDB db → GoodDB (l.foldl applyOp db) := by
    intro l
    induction l with
    | nil => intro db h; exact h
    | cons o rest ih =>
      intro db h
      rw [List.foldl_cons]
      exact ih (applyOp db o) (goodDB_applyOp db h o)
  exact hgen ops emptyDB goodDB_empty

theorem viewsFor_ids_cases (db : DB) (sym : String) (m : AccountingMethod) :
    ∀ j ∈ (viewsFor db sym m).map LotView.id,
      j = 0 ∨ ∃ l ∈ openLotsOf db sym, l.id = j := by
  intro j hj
  have hgen : ∀ (R : Lot → Lot → Prop) (_inst : DecidableRel R),
      j ∈ ((List.insertionSort R (openLotsOf db sym)).map lotView).map LotView.id →
      ∃ l ∈ openLotsOf db sym, l.id = j := by
    intro R instR hmem
    rw [sortViews_map_id] at hmem
    rcases List.mem_map.mp hmem with ⟨l, hl, rfl⟩
    exact ⟨l, (List.perm_insertionSort R (openLotsOf db sym)).mem_iff.mp hl, rfl⟩
  cases m with
  | FIFO => exact Or.inr (hgen fifoR inferInstance hj)
  | LIFO => exact Or.inr (hgen lifoR inferInstance hj)
  | SPECIFIC_ID => exact Or.inr (hgen fifoR inferInstance hj)
  | AVERAGE_COST =>
    revert hj
    simp only [viewsFor, get_open_lots_average_cost]
    split
    · intro hj
      rw [List.map_cons, List.map_nil, List.mem_singleton] at hj
      exact Or.inl hj
    · intro hj
      cases hj

theorem closed_not_in_views (db : DB) (sym : String) (m : AccountingMethod)
    (hN : (db.lots.map Lot.id).Nodup) (hone : ∀ l ∈ db.lots, 1 ≤ l.id)
    (l : Lot) (hl : l ∈ db.lots) (hcl : l.is_closed = true) :
    l.id ∉ (viewsFor db sym m).map LotView.id := by
  intro hmem
  rcases viewsFor_ids_cases db sym m l.id hmem with h0 | ⟨l'', hl''o, hid⟩
  · have := hone l hl
    omega
  · rcases (openLotsOf_mem db sym l'').mp hl''o with ⟨hdb, _, hop⟩
    have heql : l'' = l := List.inj_on_of_nodup_map hN hdb hl hid
    subst heql
    rw [hop] at hcl
    cases hcl

/-- Any single further `record_transaction` call leaves a closed lot of a
well-formed database untouched, in place. -/
theorem closed_lot_preserved (db : DB) (h : GoodDB db) (o : Op) (i : Nat) (l : Lot)
    (hget : db.lots[i]? = some l) (hcl : l.is_closed = true) :
    (applyOp db o).lots[i]? = some l := by
  obtain ⟨hN, hbound, _, _⟩ := h
  rcases o with ⟨osym, oty, oa, opr, ofe, ofc, oex, otid, onotes, ots, oam⟩
  cases oty with
  | BUY =>
    show (record_transaction db osym .BUY oa opr ofe ofc oex otid onotes ots
        oam).1.lots[i]? = some l
    rw [record_buy_lots, List.getElem?_append,
      if_pos (List.getElem?_eq_some.mp hget).1]
    exact hget
  | SELL =>
    show (record_transaction db osym .SELL oa opr ofe ofc oex otid onotes ots
        oam).1.lots[i]? = some l
    rw [record_sell_fst, process_sell_lots_eq]
    set db1 : DB :=
      { db with
          transactions := db.transactions ++
            [⟨db.next_txn_id, ots, osym, .SELL, oa, opr, oa * opr, ofe, ofc, oex,
              otid, onotes⟩],
          next_txn_id := db.next_txn_id + 1 } with hdb1
    have hget1 : db1.lots[i]? = some l := hget
    have hnot : l.id ∉ (viewsFor db1 osym (oam.getD .FIFO)).map LotView.id :=
      closed_not_in_views db1 osym (oam.getD .FIFO) hN
        (fun l' hl' => (hbound l' hl').1) l (getElem?_some_mem hget1) hcl
    exact processLots_lots_getElem? db.next_txn_id osym oa opr ofe ots
      (oam.getD .FIFO) _ oa db1 i l hget1 hnot

/-- C5 (amended): in every state reachable from a fresh tracker by
`record_transaction` calls, every closed cost-basis lot has a closed date
set, and no further `record_transaction` call ever modifies a lot after it
is closed (CLOSED is terminal and positional). The lot's `amount` column,
however, retains the value it had at the moment of closing — it is not
reset to zero. -/
theorem claim_C5 (ops : List Op) :
    (∀ l ∈ (runOps ops).lots, l.is_closed = true → l.closed_date ≠ none)
    ∧ (∀ (o : Op) (i : Nat) (l : Lot), (runOps ops).lots[i]? = some l →
        l.is_closed = true → (applyOp (runOps ops) o).lots[i]? = some l) := by
  have hg := goodDB_runOps ops
  exact ⟨hg.2.2.2, fun o i l hget hcl => closed_lot_preserved (runOps ops) hg o i l hget hcl⟩

/-- The BUY then full SELL of one BTC, as `Op` values. -/
def opBuyX : Op :=
  ⟨"BTC", .BUY, 1, 100, 0, "AUD", none, none, none, "2024-01-01 00:00:00", none⟩

/-- SELL the whole position, closing the lot. -/
def opSellX : Op :=
  ⟨"BTC", .SELL, 1, 120, 0, "AUD", none, none, none, "2024-01-02 00:00:00", none⟩

/-- The closed lot that results: note `amount` is still 1, not 0. -/
def lotClosedX : Lot :=
  ⟨1, 1, "BTC", 1, 100, 100, 0, "2024-01-01 00:00:00", true,
   some "2024-01-02 00:00:00"⟩

/-- C5 counterexample: after BUY 1.0 then SELL 1.0 (FIFO default), the lot
is closed with a closed date but its remaining `amount` column still holds
1, not 0 — the claim's "remaining amount equal to zero" is false. -/
theorem claim_C5_counterexample :
    runOps [opBuyX, opSellX] = ⟨[⟨1, "2024-01-01 00:00:00", "BTC", .BUY, 1, 100,
        100, 0, "AUD", none, none, none⟩,
      ⟨2, "2024-01-02 00:00:00", "BTC", .SELL, 1, 120, 120, 0, "AUD", none, none,
        none⟩], [lotClosedX], [⟨1, 2, 1, "BTC", 1, 100, 120, 120, 20, .FIFO,
        "2024-01-02 00:00:00"⟩], 3, 2, 2, []⟩
    ∧ lotClosedX.is_closed = true
    ∧ lotClosedX.amount ≠ 0 := by
  refine ⟨?_, rfl, by norm_num [lotClosedX]⟩
  norm_num [runOps, applyOp, opBuyX, opSellX, lotClosedX, record_transaction,
    emptyDB, process_sell_transaction, viewsFor, get_open_lots_fifo, openLotsOf,
    List.insertionSort, List.orderedInsert, fifoR, lotView, processLots, sellStep,
    sellEntry, lotUpdate, updateById, setAmount, closeLot]

/-- C5 witness: the closed lot of the concrete run keeps its closed date
and survives a further BUY unchanged at position 0. -/
theorem claim_C5_witness :
    (runOps [opBuyX, opSellX]).lots[0]? = some lotClosedX
    ∧ lotClosedX.is_closed = true
    ∧ (applyOp (runOps [opBuyX, opSellX]) opBuyX).lots[0]? = some lotClosedX := by
  have h0 : (runOps [opBuyX, opSellX]).lots[0]? = some lotClosedX := by
    norm_num [runOps, applyOp, opBuyX, opSellX, lotClosedX, record_transaction,
      emptyDB, process_sell_transaction, viewsFor, get_open_lots_fifo, openLotsOf,
      List.insertionSort, List.orderedInsert, fifoR, lotView, processLots, sellStep,
      sellEntry, lotUpdate, updateById, setAmount, closeLot]
  exact ⟨h0, rfl, (claim_C5 [opBuyX, opSellX]).2 opBuyX 0 lotClosedX h0 rfl⟩

end PortfolioTracker
